import Mathlib

/-!
Verification of the dotular module-apply engine and snapshot/rollback manager.

The Go sources are shallowly embedded:
* the snapshot manager (internal/snapshot/snapshot.go) acts on an explicit
  filesystem model, a total map from paths to filesystem entries;
* the module executor (internal/runner/runner.go) is a pure function that,
  given an oracle environment supplying the outcomes of external effects
  (shell commands, action runs, idempotency queries, snapshot I/O), returns
  the ordered trace of effects it performed together with its result.

File payloads are modelled as strings standing for the raw bytes of a file
(or the serialised tree of a directory); the snapshot copies payloads
wholesale exactly as the Go code copies files and directory trees.
-/

namespace Dotular

/-! ## Filesystem model -/

/-- State of one path as seen by os.Stat in snapshot.go: the path is absent,
present (with its directory flag and whole payload), or stat fails. -/
inductive FsItem where
  | absent : FsItem
  | present (isDir : Bool) (content : String) : FsItem
  | statErr (msg : String) : FsItem
deriving DecidableEq, Repr

/-- A filesystem is a total assignment of states to paths. -/
def FS := String → FsItem

/-! ## Snapshot manager (internal/snapshot/snapshot.go)

The Go struct holds a temporary directory name, a map from destination
paths to backup file names inside that directory, and a list of created
paths.  A backup file name is dir plus the decimal key assigned at record
time, which is the size of the saved map at that moment; we model the
backup directory as a list indexed by that key. -/

/-- Snapshot: saved maps a destination path to its backup key, store holds
the backup payloads (with the directory flag from os.Stat), created lists
the paths that did not exist when recorded. -/
structure Snapshot where
  saved : List (String × Nat)
  store : List (Bool × String)
  created : List String
deriving DecidableEq, Repr

namespace Snapshot

/-- Snapshot.New: an empty snapshot over a fresh temporary directory. -/
def New : Snapshot := ⟨[], [], []⟩

/-- Membership of a path in the saved map (Go: s.saved[path] lookup). -/
def savedKey (s : Snapshot) (path : String) : Option Nat :=
  (s.saved.find? (fun pk => pk.1 = path)).map (fun pk => pk.2)

/-- Snapshot.Record: no-op when the path is already saved or already in the
created list; otherwise either remember it as created (when absent) or copy
its payload into the store under the next sequential key.  Stat failures
are returned as errors; the payload copy itself is modelled as exact. -/
def Record (s : Snapshot) (fs : FS) (path : String) : Except String Snapshot :=
  if (s.saved.any (fun pk => pk.1 = path)) then .ok s
  else if s.created.contains path then .ok s
  else
    match fs path with
    | .absent => .ok { s with created := s.created ++ [path] }
    | .statErr e => .error ("snapshot " ++ path ++ ": " ++ e)
    | .present d c =>
        .ok { s with
                saved := s.saved ++ [(path, s.saved.length)],
                store := s.store ++ [(d, c)] }

/-- Snapshot.Restore, viewed as the filesystem it leaves behind: every saved
path gets its backup payload written back (for directories the live tree is
removed first and recreated from the backup, so the result is the backup
either way), every created path is deleted.  A missing backup (stat error
on the backup file) leaves the live path untouched, matching the Go loop
that records the errorand continues. -/
def Restore (s : Snapshot) (fs : FS) : FS := fun p =>
  if s.created.contains p then .absent
  else
    match s.savedKey p with
    | some k =>
        match s.store.get? k with
        | some dc => .present dc.1 dc.2
        | none => fs p
    | none => fs p

/-- Number of entries a path holds across the two sets: occurrences among
the saved keys plus occurrences in the created list. -/
def entryCount (s : Snapshot) (path : String) : Nat :=
  s.saved.countP (fun pk => pk.1 = path) + s.created.count path

/-- Well-formedness tying the saved map to the backup store: keys were
assigned sequentially, so the store has exactly one payload per saved
entry. -/
def WF (s : Snapshot) : Prop := s.store.length = s.saved.length

/-- Disjointness invariant of the two sets: no path is both saved and
created. -/
def DisjointSets (s : Snapshot) : Prop :=
  ∀ p, ¬((s.saved.any (fun pk => pk.1 = p)) = true ∧ s.created.contains p = true)

end Snapshot

/-! ## Configuration data model (internal/config/config.go)

Registry reference fields (From, With, Override) are resolved away before a
module reaches the runner and are omitted; the Value field of a setting item
is Go "any" and is modelled by its rendered string. -/

/-- PlatformMap holds a per-OS value (scalar YAML form sets all three). -/
structure PlatformMap where
  MacOS : String := ""
  Windows : String := ""
  Linux : String := ""
deriving DecidableEq, Repr

/-- PlatformMap.ForOS returns the value for the given runtime GOOS string. -/
def PlatformMap.ForOS (p : PlatformMap) (goos : String) : String :=
  if goos = "darwin" then p.MacOS
  else if goos = "windows" then p.Windows
  else if goos = "linux" then p.Linux
  else ""

/-- ItemHooks are shell commands around individual item application. -/
structure ItemHooks where
  BeforeApply : String := ""
  AfterApply : String := ""
  BeforeSync : String := ""
  AfterSync : String := ""
deriving DecidableEq, Repr

/-- ModuleHooks are shell commands around module application. -/
structure ModuleHooks where
  BeforeApply : String := ""
  AfterApply : String := ""
  BeforeSync : String := ""
  AfterSync : String := ""
deriving DecidableEq, Repr

/-- Item is the polymorphic config record; its kind is derived from which
primary field is populated. -/
structure Item where
  Package : String := ""
  Script : String := ""
  Setting : String := ""
  Key : String := ""
  Value : String := ""
  File : String := ""
  Destination : PlatformMap := {}
  Direction : String := ""
  Link : Bool := false
  Permissions : String := ""
  Encrypted : Bool := false
  Directory : String := ""
  Binary : String := ""
  Version : String := ""
  Source : PlatformMap := {}
  InstallTo : String := ""
  Run : String := ""
  After : String := ""
  Via : String := ""
  SkipIf : String := ""
  Verify : String := ""
  Hooks : ItemHooks := {}
deriving DecidableEq, Repr

/-- Item.Type in the Go source (Type is reserved in Lean): the action type
string derived from the first populated primary field. -/
def Item.itemType (i : Item) : String :=
  if i.Package ≠ "" then "package"
  else if i.Script ≠ "" then "script"
  else if i.Setting ≠ "" then "setting"
  else if i.File ≠ "" then "file"
  else if i.Directory ≠ "" then "directory"
  else if i.Binary ≠ "" then "binary"
  else if i.Run ≠ "" then "run"
  else "unknown"

/-- Item.EffectiveDirection: the file transfer direction, defaulting to
push. -/
def Item.EffectiveDirection (i : Item) : String :=
  if i.Direction = "pull" ∨ i.Direction = "sync" then i.Direction else "push"

/-- Module groups items under a name with tag filters and hooks. -/
structure Module where
  Name : String := ""
  Items : List Item := []
  OnlyTags : List String := []
  ExcludeTags : List String := []
  Hooks : ModuleHooks := {}
deriving DecidableEq, Repr

/-! ## Actions (internal/actions) and platform helpers -/

/-- Action: the runtime counterpart of an item, one constructor per concrete
action type built by Runner.buildAction. -/
inductive Action where
  | packageA (pkg manager : String)
  | scriptA (script via : String)
  | fileA (source destination direction : String) (link : Bool)
      (permissions : String) (encrypted : Bool)
  | directoryA (source destination direction : String) (link : Bool)
      (permissions : String)
  | binaryA (name version sourceURL installTo : String)
  | runA (command after : String)
  | settingA (domain key value : String)
deriving DecidableEq, Repr

/-- platform.PackageManagerOS: the OS a package manager is specific to, or
the empty string for cross-platform managers. -/
def PackageManagerOS (manager : String) : String :=
  if manager = "brew" ∨ manager = "brew-cask" ∨ manager = "mas" then "darwin"
  else if manager = "winget" ∨ manager = "choco" ∨ manager = "scoop" then "windows"
  else if manager = "apt" ∨ manager = "apt-get" ∨ manager = "dnf" ∨ manager = "yum"
      ∨ manager = "pacman" ∨ manager = "snap" then "linux"
  else ""

/-- installArgs from actions/package.go: command line per manager, or an
error for an unknown manager.  PackageAction.Run consults this before its
dry-run check, so an unknown manager fails even in dry-run mode. -/
def installArgs (manager pkg : String) : Except String (List String) :=
  if manager = "brew" then .ok ["brew", "install", pkg]
  else if manager = "brew-cask" then .ok ["brew", "install", "--cask", pkg]
  else if manager = "mas" then .ok ["mas", "install", pkg]
  else if manager = "winget" then
    .ok ["winget", "install", "--id", pkg, "-e", "--accept-source-agreements"]
  else if manager = "choco" then .ok ["choco", "install", pkg, "-y"]
  else if manager = "scoop" then .ok ["scoop", "install", pkg]
  else if manager = "apt" ∨ manager = "apt-get" then
    .ok ["sudo", "apt-get", "install", "-y", pkg]
  else if manager = "dnf" then .ok ["sudo", "dnf", "install", "-y", pkg]
  else if manager = "yum" then .ok ["sudo", "yum", "install", "-y", pkg]
  else if manager = "pacman" then .ok ["sudo", "pacman", "-S", "--noconfirm", pkg]
  else if manager = "snap" then .ok ["sudo", "snap", "install", pkg]
  else if manager = "flatpak" then .ok ["flatpak", "install", "-y", pkg]
  else if manager = "nix" then .ok ["nix-env", "-iA", pkg]
  else .error ("unknown package manager: \"" ++ manager ++ "\"")

/-- Which actions have the Idempotent capability (the Go type assertion
action.(actions.Idempotent) succeeds): PackageAction, FileAction and
DirectoryAction define IsApplied; the others do not. -/
def Action.isIdempotent : Action → Bool
  | .packageA _ _ => true
  | .fileA _ _ _ _ _ _ => true
  | .directoryA _ _ _ _ _ => true
  | _ => false

/-- Result of action.Run with dryRun set: every implementation prints the
intended effect and returns nil, except PackageAction which resolves
installArgs before its dry-run check and so fails on an unknown manager. -/
def Action.runDry : Action → Except String Unit
  | .packageA pkg manager => (installArgs manager pkg).map (fun _ => ())
  | _ => .ok ()

/-! ## Oracle environment and effect trace

External side effects (shell commands, real action runs, idempotency
queries, snapshot I/O, path expansion) are supplied by an oracle; the
executor records every effect it performs in an ordered trace. -/

/-- Env: outcomes of the executor's external collaborators.  shellRun is
shell.Run (non-zero exit is an error); shellEval is shell.Eval (non-zero
exit is ok false, only real execution failure is an error); runAction is
action.Run with dryRun unset; snapNew, recordPath and restore are the
snapshot I/O outcomes as the executor observes them; expandPath, baseName,
ext and pathJoin model platform.ExpandPath and the filepath helpers. -/
structure Env where
  shellRun : String → Except String Unit
  shellEval : String → Except String Bool
  isApplied : Action → Except String Bool
  runAction : Action → Except String Unit
  snapNew : Except String Unit
  recordPath : String → Except String Unit
  restore : Except String Unit
  expandPath : String → String
  baseName : String → String
  ext : String → String
  pathJoin : String → String → String

/-- Audit entry (internal/audit): one immutable fact about an item outcome.
The Item field holds the action description string. -/
structure AuditEntry where
  Command : String
  Module : String
  Item : String
  Outcome : String
  Error : String := ""
deriving DecidableEq, Repr

/-- One observable effect performed by the executor, in order. -/
inductive Event where
  | hookRun (hookName scope name cmd : String)
  | hookDryRun (hookName scope cmd : String)
  | snapCreate
  | snapRecord (path : String)
  | snapRestore (err : Option String)
  | snapDiscard
  | skipIfEval (cmd : String)
  | isAppliedQuery (a : Action)
  | actionRun (a : Action) (dryRun : Bool)
  | verifyRun (cmd : String)
  | audit (entry : AuditEntry)
deriving DecidableEq, Repr

/-- Action.Describe, as each action type renders itself.  File/directory
targets resolve through the environment's path helpers exactly as
ResolvedTarget does in the Go code. -/
def Action.describe (env : Env) : Action → String
  | .packageA pkg manager => "install package \"" ++ pkg ++ "\" via " ++ manager
  | .scriptA script via => "run script \"" ++ script ++ "\" (via " ++ via ++ ")"
  | .fileA source destination direction link _ encrypted =>
      let expanded := env.expandPath destination
      let target :=
        if ¬ destination.endsWith "/" ∧ env.ext (env.baseName expanded) ≠ "" then
          expanded
        else env.pathJoin expanded (env.baseName source)
      let enc := if encrypted then " [encrypted]" else ""
      if link then "link   " ++ source ++ " -> " ++ target ++ enc
      else if direction = "pull" then "pull   " ++ source ++ " <- " ++ target ++ enc
      else if direction = "sync" then "sync   " ++ source ++ " <-> " ++ target ++ enc
      else "push   " ++ source ++ " -> " ++ target ++ enc
  | .directoryA source destination direction link _ =>
      let expanded := env.expandPath destination
      let target :=
        if env.baseName expanded = env.baseName source then expanded
        else env.pathJoin expanded (env.baseName source)
      if link then "link-dir  " ++ source ++ " -> " ++ target
      else if direction = "pull" then "pull-dir  " ++ source ++ " <- " ++ target
      else if direction = "sync" then "sync-dir  " ++ source ++ " <-> " ++ target
      else "push-dir  " ++ source ++ " -> " ++ target
  | .binaryA name version _ installTo =>
      "install binary " ++ name ++ (if version ≠ "" then "@" ++ version else "")
        ++ " -> " ++ env.expandPath installTo
  | .runA command after =>
      "run \"" ++ command ++ "\""
        ++ (if after ≠ "" then " (after " ++ after ++ ")" else "")
  | .settingA domain key value => "set " ++ domain ++ " " ++ key ++ " = " ++ value

/-! ## Module executor (internal/runner/runner.go) -/

/-- Runner: the machine context of one apply run. -/
structure Runner where
  DryRun : Bool := false
  Verbose : Bool := false
  Atomic : Bool := true
  OS : String := "linux"
  Command : String := "apply"
  DirectionOverride : String := ""
deriving DecidableEq, Repr

namespace Runner

/-- Runner.fileDirection: the effective direction for a file or directory
item, applying any DirectionOverride; link items are never overridden. -/
def fileDirection (r : Runner) (item : Item) : String :=
  if r.DirectionOverride ≠ "" ∧ ¬ item.Link then r.DirectionOverride
  else item.EffectiveDirection

/-- Runner.skipManager: a package manager known to target another OS. -/
def skipManager (r : Runner) (manager : String) : Bool :=
  PackageManagerOS manager ≠ "" ∧ PackageManagerOS manager ≠ r.OS

/-- Runner.buildAction: convert an item into an action.  ok none models the
(nil, true, nil) "not applicable on this OS" result; an unrecognised item
is a build error. -/
def buildAction (r : Runner) (item : Item) : Except String (Option Action) :=
  if item.itemType = "package" then
    if r.skipManager item.Via then .ok none
    else .ok (some (.packageA item.Package item.Via))
  else if item.itemType = "script" then
    .ok (some (.scriptA item.Script item.Via))
  else if item.itemType = "file" then
    let dest := item.Destination.ForOS r.OS
    if dest = "" then .ok none
    else .ok (some (.fileA item.File dest (r.fileDirection item) item.Link
      item.Permissions item.Encrypted))
  else if item.itemType = "directory" then
    let dest := item.Destination.ForOS r.OS
    if dest = "" then .ok none
    else .ok (some (.directoryA item.Directory dest (r.fileDirection item)
      item.Link item.Permissions))
  else if item.itemType = "binary" then
    let sourceURL := item.Source.ForOS r.OS
    if sourceURL = "" then .ok none
    else .ok (some (.binaryA item.Binary item.Version sourceURL
      (if item.InstallTo = "" then "~/.local/bin" else item.InstallTo)))
  else if item.itemType = "run" then
    .ok (some (.runA item.Run item.After))
  else if item.itemType = "setting" then
    .ok (some (.settingA item.Setting item.Key item.Value))
  else .error "item has no recognised type"

/-- Runner.runHook: empty command is a silent no-op; in dry-run the hook is
printed, never executed; otherwise the shell runs it and a failure is
wrapped with hook name, scope and owner. -/
def runHook (r : Runner) (env : Env) (cmd scope name hookName : String) :
    List Event × Except String Unit :=
  if cmd = "" then ([], .ok ())
  else if r.DryRun then ([.hookDryRun hookName scope cmd], .ok ())
  else
    match env.shellRun cmd with
    | .ok _ => ([.hookRun hookName scope name cmd], .ok ())
    | .error e =>
        ([.hookRun hookName scope name cmd],
          .error ("hook " ++ hookName ++ " failed on " ++ scope ++ " \""
            ++ name ++ "\": " ++ e))

/-- Main phase of Runner.applyItem after the skip checks: item hooks,
snapshot record, action run with its audit entry, verify, closing hooks. -/
def itemMain (r : Runner) (env : Env) (mod : Module) (item : Item)
    (action : Action) (snapActive : Bool) : List Event × Except String Unit :=
  let desc := action.describe env
  let isSync := (item.itemType = "file" ∨ item.itemType = "directory")
    ∧ r.fileDirection item = "sync"
  match r.runHook env item.Hooks.BeforeApply "item" desc "before_apply" with
  | (t, .error e) => (t, .error ("module \"" ++ mod.Name ++ "\": " ++ e))
  | (t₁, .ok _) =>
    let syncBefore :=
      if isSync then r.runHook env item.Hooks.BeforeSync "item" desc "before_sync"
      else ([], .ok ())
    match syncBefore with
    | (t, .error e) => (t₁ ++ t, .error ("module \"" ++ mod.Name ++ "\": " ++ e))
    | (t₂, .ok _) =>
      let recordStep : List Event × Except String Unit :=
        if snapActive ∧ (item.itemType = "file" ∨ item.itemType = "directory") then
          let dest := item.Destination.ForOS r.OS
          let srcName := if item.itemType = "directory" then item.Directory else item.File
          if dest ≠ "" ∧ srcName ≠ "" then
            let destPath := env.pathJoin (env.expandPath dest) (env.baseName srcName)
            match env.recordPath destPath with
            | .ok _ => ([.snapRecord destPath], .ok ())
            | .error e =>
                ([.snapRecord destPath],
                  .error ("module \"" ++ mod.Name ++ "\": snapshot " ++ destPath
                    ++ ": " ++ e))
          else ([], .ok ())
        else ([], .ok ())
      match recordStep with
      | (t, .error e) => (t₁ ++ t₂ ++ t, .error e)
      | (t₃, .ok _) =>
        let runRes := if r.DryRun then action.runDry else env.runAction action
        match runRes with
        | .error e =>
            (t₁ ++ t₂ ++ t₃ ++ [.actionRun action r.DryRun,
              .audit ⟨r.Command, mod.Name, desc, "failure", e⟩],
             .error ("module \"" ++ mod.Name ++ "\": " ++ e))
        | .ok _ =>
          let t₄ := t₁ ++ t₂ ++ t₃ ++ [Event.actionRun action r.DryRun,
            .audit ⟨r.Command, mod.Name, desc, "success", ""⟩]
          let verifyStep : List Event × Except String Unit :=
            if item.Verify ≠ "" ∧ ¬ r.DryRun then
              match env.shellRun item.Verify with
              | .ok _ => ([.verifyRun item.Verify], .ok ())
              | .error e =>
                  ([.verifyRun item.Verify],
                    .error ("module \"" ++ mod.Name ++ "\": verify failed for \""
                      ++ desc ++ "\": " ++ e))
            else ([], .ok ())
          match verifyStep with
          | (t, .error e) => (t₄ ++ t, .error e)
          | (t₅, .ok _) =>
            let syncAfter :=
              if isSync then r.runHook env item.Hooks.AfterSync "item" desc "after_sync"
              else ([], .ok ())
            match syncAfter with
            | (t, .error e) => (t₄ ++ t₅ ++ t, .error ("module \"" ++ mod.Name ++ "\": " ++ e))
            | (t₆, .ok _) =>
              match r.runHook env item.Hooks.AfterApply "item" desc "after_apply" with
              | (t, .error e) =>
                  (t₄ ++ t₅ ++ t₆ ++ t, .error ("module \"" ++ mod.Name ++ "\": " ++ e))
              | (t₇, res) => (t₄ ++ t₅ ++ t₆ ++ t₇, res)

/-- Auto-idempotency phase of Runner.applyItem: actions with the Idempotent
capability are queried; already-applied items are skipped with an audit
entry. -/
def itemIdemPhase (r : Runner) (env : Env) (mod : Module) (item : Item)
    (action : Action) (snapActive : Bool) : List Event × Except String Unit :=
  if action.isIdempotent then
    match env.isApplied action with
    | .error e =>
        ([.isAppliedQuery action],
          .error ("module \"" ++ mod.Name ++ "\": idempotency check: " ++ e))
    | .ok true =>
        ([.isAppliedQuery action,
          .audit ⟨r.Command, mod.Name, action.describe env, "skipped", ""⟩], .ok ())
    | .ok false =>
        let rest := r.itemMain env mod item action snapActive
        (Event.isAppliedQuery action :: rest.1, rest.2)
  else r.itemMain env mod item action snapActive

/-- Runner.applyItem: build the action, silent OS skip, skip_if guard,
idempotency check, then the main phase. -/
def applyItem (r : Runner) (env : Env) (mod : Module) (item : Item)
    (snapActive : Bool) : List Event × Except String Unit :=
  match r.buildAction item with
  | .error e => ([], .error ("module \"" ++ mod.Name ++ "\": " ++ e))
  | .ok none => ([], .ok ())
  | .ok (some action) =>
    if item.SkipIf ≠ "" then
      match env.shellEval item.SkipIf with
      | .error e =>
          ([.skipIfEval item.SkipIf],
            .error ("module \"" ++ mod.Name ++ "\": skip_if eval failed: " ++ e))
      | .ok true =>
          ([.skipIfEval item.SkipIf,
            .audit ⟨r.Command, mod.Name, action.describe env, "skipped", ""⟩], .ok ())
      | .ok false =>
          let rest := r.itemIdemPhase env mod item action snapActive
          (Event.skipIfEval item.SkipIf :: rest.1, rest.2)
    else r.itemIdemPhase env mod item action snapActive

/-- Sequential item loop inside Runner.applyItems: stops at the first item
error. -/
def applyLoop (r : Runner) (env : Env) (mod : Module) (snapActive : Bool) :
    List Item → List Event × Except String Unit
  | [] => ([], .ok ())
  | item :: rest =>
    match r.applyItem env mod item snapActive with
    | (t, .error e) => (t, .error e)
    | (t, .ok _) =>
        let tail := r.applyLoop env mod snapActive rest
        (t ++ tail.1, tail.2)

/-- Whether any item of the module resolves to a sync direction (the
hasSyncItem scan at the top of Runner.applyItems). -/
def hasSyncItem (r : Runner) (mod : Module) : Bool :=
  mod.Items.any fun item =>
    (item.itemType = "file" ∨ item.itemType = "directory")
      ∧ r.fileDirection item = "sync"

/-- Runner.applyItems: fire before_sync/after_sync around the item loop when
any item resolves to sync. -/
def applyItems (r : Runner) (env : Env) (mod : Module) (snapActive : Bool) :
    List Event × Except String Unit :=
  if r.hasSyncItem mod then
    match r.runHook env mod.Hooks.BeforeSync "module" mod.Name "before_sync" with
    | (t, .error e) => (t, .error e)
    | (t₁, .ok _) =>
      match r.applyLoop env mod snapActive mod.Items with
      | (t₂, .error e) => (t₁ ++ t₂, .error e)
      | (t₂, .ok _) =>
        match r.runHook env mod.Hooks.AfterSync "module" mod.Name "after_sync" with
        | (t₃, res) => (t₁ ++ t₂ ++ t₃, res)
  else r.applyLoop env mod snapActive mod.Items

/-- Runner.ApplyModule: before_apply hook, snapshot creation in atomic
non-dry-run mode, the item loop, rollback with unconditional discard on
failure, discard and after_apply hook on success. -/
def ApplyModule (r : Runner) (env : Env) (mod : Module) :
    List Event × Except String Unit :=
  match r.runHook env mod.Hooks.BeforeApply "module" mod.Name "before_apply" with
  | (t, .error e) => (t, .error e)
  | (t₁, .ok _) =>
    if r.Atomic ∧ ¬ r.DryRun then
      match env.snapNew with
      | .error e =>
          (t₁, .error ("module \"" ++ mod.Name ++ "\": create snapshot: " ++ e))
      | .ok _ =>
        match r.applyItems env mod true with
        | (t₂, .error e) =>
            (t₁ ++ [Event.snapCreate] ++ t₂
              ++ [Event.snapRestore (match env.restore with
                    | .ok _ => none
                    | .error re => some re), Event.snapDiscard],
             .error e)
        | (t₂, .ok _) =>
          match r.runHook env mod.Hooks.AfterApply "module" mod.Name "after_apply" with
          | (t₃, res) =>
              (t₁ ++ [Event.snapCreate] ++ t₂ ++ [Event.snapDiscard] ++ t₃, res)
    else
      match r.applyItems env mod false with
      | (t₂, .error e) => (t₁ ++ t₂, .error e)
      | (t₂, .ok _) =>
        match r.runHook env mod.Hooks.AfterApply "module" mod.Name "after_apply" with
        | (t₃, res) => (t₁ ++ t₂ ++ t₃, res)

/-- Item loop of Runner.VerifyModule: items without a verify command are
omitted; build errors and OS skips are silently excluded; otherwise the
verify command runs and one pass/fail audit entry is emitted. -/
def verifyLoop (r : Runner) (env : Env) (mod : Module) :
    List Item → List Event × Bool
  | [] => ([], true)
  | item :: rest =>
    let tail := r.verifyLoop env mod rest
    if item.Verify = "" then tail
    else
      match r.buildAction item with
      | .error _ => tail
      | .ok none => tail
      | .ok (some action) =>
        match env.shellRun item.Verify with
        | .ok _ =>
            (Event.verifyRun item.Verify
              :: Event.audit ⟨"verify", mod.Name, action.describe env, "success", ""⟩
              :: tail.1, tail.2)
        | .error _ =>
            (Event.verifyRun item.Verify
              :: Event.audit ⟨"verify", mod.Name, action.describe env, "failure", ""⟩
              :: tail.1, false)

/-- Runner.VerifyModule: run every declared verify command without invoking
any action Run; the error component of the Go return pair is modelled as an
Option and is nil on every path. -/
def VerifyModule (r : Runner) (env : Env) (mod : Module) :
    List Event × (Bool × Option String) :=
  match r.verifyLoop env mod mod.Items with
  | (t, allPassed) => (t, (allPassed, none))

end Runner

/-! ## Event classification -/

/-- Events an item evaluation may emit: item-scoped hooks and the per-item
effects, but never module-scoped hooks or snapshot lifecycle events. -/
def Event.itemLevel : Event → Prop
  | .hookRun _ scope _ _ => scope = "item"
  | .hookDryRun _ scope _ => scope = "item"
  | .snapCreate => False
  | .snapRestore _ => False
  | .snapDiscard => False
  | _ => True

/-- Whether an event is an invocation of some action's Run. -/
def Event.isActionRun : Event → Bool
  | .actionRun _ _ => true
  | _ => false

/-- Whether an event is an audit entry emission. -/
def Event.isAudit : Event → Bool
  | .audit _ => true
  | _ => false

/-- Events permitted in dry-run mode: no snapshot lifecycle, no executed
hook, no verify command, and every action run carries the dry-run flag. -/
def Event.dryLegal : Event → Prop
  | .snapCreate => False
  | .snapRecord _ => False
  | .snapRestore _ => False
  | .snapDiscard => False
  | .hookRun _ _ _ _ => False
  | .verifyRun _ => False
  | .actionRun _ dry => dry = true
  | _ => True

/-- Number of audit entries in a trace. -/
def countAudit (t : List Event) : Nat := t.countP Event.isAudit

/-! ## Concrete fixtures used by witnesses and counterexamples -/

/-- Benign oracle: every external effect succeeds, every skip guard says
"do not skip", no action reports itself applied. -/
def envOk : Env where
  shellRun := fun _ => .ok ()
  shellEval := fun _ => .ok false
  isApplied := fun _ => .ok false
  runAction := fun _ => .ok ()
  snapNew := .ok ()
  recordPath := fun _ => .ok ()
  restore := .ok ()
  expandPath := fun s => s
  baseName := fun s => s
  ext := fun _ => ""
  pathJoin := fun a b => a ++ "/" ++ b

/-- Oracle where every real action run fails and a snapshot restore also
fails, for exercising the rollback path. -/
def envRollback : Env :=
  { envOk with runAction := fun _ => .error "exit 1", restore := .error "rerr" }

/-- Oracle where only the shell command aa fails (used for the after_apply
hook failure scenario). -/
def envHookFail : Env :=
  { envOk with shellRun := fun c => if c = "aa" then .error "hookboom" else .ok () }

/-- Oracle where only the shell command v fails (a failing verify check). -/
def envVerifyFail : Env :=
  { envOk with shellRun := fun c => if c = "v" then .error "vfail" else .ok () }

/-- Runner in actual (non-dry) atomic mode on linux. -/
def rActual : Runner := { DryRun := false, Atomic := true, OS := "linux" }

/-- Runner in dry-run atomic mode on linux. -/
def rDry : Runner := { DryRun := true, Atomic := true, OS := "linux" }

/-- Runner in actual non-atomic mode on linux. -/
def rNoAtomic : Runner := { DryRun := false, Atomic := false, OS := "linux" }

/-- Module with a single failing run item. -/
def modRunFail : Module := { Name := "m", Items := [{ Run := "false" }] }

/-- Module with one sync-direction file item and declared sync hooks. -/
def modSyncHooks : Module :=
  { Name := "m",
    Items := [{ File := "f", Destination := { Linux := "dest" }, Direction := "sync" }],
    Hooks := { BeforeApply := "ba", AfterApply := "aa",
               BeforeSync := "bs", AfterSync := "as" } }

/-- Module with a package item whose manager is specific to another OS. -/
def modOsSkip : Module := { Name := "m", Items := [{ Package := "git", Via := "brew" }] }

/-- Module with a package item naming an unknown package manager. -/
def modBadManager : Module :=
  { Name := "m", Items := [{ Package := "git", Via := "frobnicator" }] }

/-- Module with one run item whose after_apply hook is the command aa. -/
def modAfterApply : Module :=
  { Name := "m", Items := [{ Run := "true" }], Hooks := { AfterApply := "aa" } }

/-- Module with one verified run item and one unverified run item. -/
def modVerify : Module :=
  { Name := "m", Items := [{ Run := "x", Verify := "v" }, { Run := "y" }] }

/-- Snapshot holding one saved copy of path f with payload old. -/
def snapSavedF : Snapshot := ⟨[("f", 0)], [(false, "old")], []⟩

/-- Snapshot holding one created entry for path g. -/
def snapCreatedG : Snapshot := ⟨[], [], ["g"]⟩

/-- Filesystem where f is a file with payload old and everything else is
absent. -/
def fsOldF : FS := fun p => if p = "f" then .present false "old" else .absent

/-- Filesystem where every path currently holds a file with payload new. -/
def fsAllNew : FS := fun _ => .present false "new"

/-! ## List helper lemmas -/

theorem find?_append_of_none {α : Type} (l₁ l₂ : List α) (q : α → Bool)
    (h : l₁.find? q = none) : (l₁ ++ l₂).find? q = l₂.find? q := by
  induction l₁ with
  | nil => rfl
  | cons a l ih =>
    rw [List.cons_append, List.find?_cons] at *
    cases hq : q a with
    | true => simp [hq] at h
    | false => simp only [hq] at h ⊢; exact ih h

theorem find?_of_any_false {α : Type} (l : List α) (q : α → Bool)
    (h : l.any q = false) : l.find? q = none := by
  induction l with
  | nil => rfl
  | cons a l ih =>
    simp only [List.any_cons, Bool.or_eq_false_iff] at h
    rw [List.find?_cons, h.1]
    exact ih h.2

theorem contains_append_self (l : List String) (p : String) :
    (l ++ [p]).contains p = true := by
  induction l with
  | nil => simp
  | cons a l ih => simp only [List.cons_append, List.contains_cons, ih, Bool.or_true]

theorem contains_append_other (l : List String) (p q : String) (hne : q ≠ p) :
    (l ++ [p]).contains q = l.contains q := by
  induction l with
  | nil => simpa using hne
  | cons a l ih => simp only [List.cons_append, List.contains_cons, ih]

theorem countP_of_any_false {α : Type} (l : List α) (q : α → Bool)
    (h : l.any q = false) : l.countP q = 0 := by
  induction l with
  | nil => rfl
  | cons a l ih =>
    simp only [List.any_cons, Bool.or_eq_false_iff] at h
    simp [List.countP_cons, h.1, ih h.2]

theorem count_of_contains_false (l : List String) (p : String)
    (h : l.contains p = false) : l.count p = 0 := by
  induction l with
  | nil => rfl
  | cons a l ih =>
    simp only [List.contains_cons, Bool.or_eq_false_iff, beq_eq_false_iff_ne] at h
    rw [List.count_cons, ih (by simpa using h.2)]
    simp [Ne.symm h.1]

namespace Snapshot

/-! ## Snapshot claims -/

/-- C2.  Round-trip through the snapshot: recording an existing path saves a
byte-identical copy that Restore writes back over any later mutation, and
recording an absent path marks it created so that Restore removes it even if
it was created in the meantime.  The path is assumed not to have been
recorded before (a second Record is a no-op and would keep the first copy). -/
theorem record_restore_roundtrip (s : Snapshot) (fs fs' : FS) (p : String)
    (hwf : s.WF)
    (hns : s.saved.any (fun pk => pk.1 = p) = false)
    (hnc : s.created.contains p = false) :
    (∀ d c, fs p = .present d c →
        ∀ s', s.Record fs p = .ok s' → s'.Restore fs' p = .present d c)
    ∧ (fs p = .absent →
        ∀ s', s.Record fs p = .ok s' → s'.Restore fs' p = .absent) := by
  constructor
  · intro d c hp s' hrec
    simp only [Record, hns, hnc, hp, Bool.false_eq_true, if_false,
      Except.ok.injEq] at hrec
    subst hrec
    simp only [Restore, savedKey, hnc, Bool.false_eq_true, if_false]
    rw [find?_append_of_none _ _ _ (find?_of_any_false _ _ hns)]
    have hget : (s.store ++ [(d, c)])[s.saved.length]? = some (d, c) := by
      rw [← hwf]
      simp [List.getElem?_concat_length]
    simp [List.find?_cons, hget]
  · intro hp s' hrec
    simp only [Record, hns, hnc, hp, Bool.false_eq_true, if_false,
      Except.ok.injEq] at hrec
    subst hrec
    simp only [Restore, contains_append_self, if_pos]

/-- C5.  Record is idempotent per path: once a path has been recorded (as a
saved copy or as created), a second Record for it is a no-op that returns no
error regardless of the filesystem state at that time, and a path recorded
for the first time ends up with exactly one entry across the two sets. -/
theorem record_idempotent (s : Snapshot) (fs fs₂ : FS) (p : String) :
    (∀ s', s.Record fs p = .ok s' → s'.Record fs₂ p = .ok s')
    ∧ (s.saved.any (fun pk => pk.1 = p) = false →
        s.created.contains p = false →
        ∀ s', s.Record fs p = .ok s' → s'.entryCount p = 1) := by
  constructor
  · intro s' hrec
    rw [Record] at hrec
    by_cases hs : s.saved.any (fun pk => pk.1 = p) = true
    · rw [if_pos hs] at hrec
      cases hrec
      rw [Record, if_pos hs]
    · rw [if_neg hs] at hrec
      by_cases hc : s.created.contains p = true
      · rw [if_pos hc] at hrec
        cases hrec
        rw [Record]
        by_cases hs' : s.saved.any (fun pk => pk.1 = p) = true
        · rw [if_pos hs']
        · rw [if_neg hs', if_pos hc]
      · rw [if_neg hc] at hrec
        cases hp : fs p with
        | absent =>
          rw [hp] at hrec
          cases hrec
          rw [Record]
          by_cases hs' : s.saved.any (fun pk => pk.1 = p) = true
          · rw [if_pos hs']
          · rw [if_neg hs', if_pos (contains_append_self _ _)]
        | statErr e => rw [hp] at hrec; cases hrec
        | present d c =>
          rw [hp] at hrec
          cases hrec
          simp [Record, List.any_append]
  · intro hns hnc s' hrec
    simp only [Record, hns, hnc, Bool.false_eq_true, if_false] at hrec
    cases hp : fs p with
    | absent =>
      rw [hp] at hrec
      simp only [Except.ok.injEq] at hrec
      subst hrec
      rw [entryCount]
      simp only [countP_of_any_false _ _ hns]
      rw [List.count_append, count_of_contains_false _ _ hnc]
      simp [List.count_cons]
    | statErr e => rw [hp] at hrec; cases hrec
    | present d c =>
      rw [hp] at hrec
      simp only [Except.ok.injEq] at hrec
      subst hrec
      rw [entryCount]
      simp only [count_of_contains_false _ _ hnc]
      rw [List.countP_append, countP_of_any_false _ _ hns]
      simp [List.countP_cons]

/-- C6.  A path lives in at most one of the two snapshot sets: the empty
snapshot made by New is disjoint, and Record preserves disjointness (it is
the only operation that modifies the snapshot; Restore and Discard read it). -/
theorem snapshot_sets_disjoint :
    Snapshot.New.DisjointSets
    ∧ ∀ (s : Snapshot) (fs : FS) (p : String) (s' : Snapshot),
        s.DisjointSets → s.Record fs p = .ok s' → s'.DisjointSets := by
  constructor
  · intro p h
    simp [Snapshot.New] at h
  · intro s fs p s' hdisj hrec
    rw [Record] at hrec
    by_cases hs : s.saved.any (fun pk => pk.1 = p) = true
    · rw [if_pos hs] at hrec; cases hrec; exact hdisj
    · rw [if_neg hs] at hrec
      by_cases hc : s.created.contains p = true
      · rw [if_pos hc] at hrec; cases hrec; exact hdisj
      · rw [if_neg hc] at hrec
        cases hp : fs p with
        | absent =>
          rw [hp] at hrec
          cases hrec
          intro q hq
          by_cases hqp : q = p
          · subst hqp
            exact hs hq.1
          · refine hdisj q ⟨hq.1, ?_⟩
            rw [← contains_append_other s.created p q hqp]
            exact hq.2
        | statErr e => rw [hp] at hrec; cases hrec
        | present d c =>
          rw [hp] at hrec
          cases hrec
          intro q hq
          by_cases hqp : q = p
          · subst hqp
            have hmem : q ∈ s.created := by simpa using hq.2
            have : q ∉ s.created := by simpa using hc
            exact this hmem
          · refine hdisj q ⟨?_, hq.2⟩
            have := hq.1
            simp only [List.any_append, List.any_cons, List.any_nil,
              Bool.or_eq_true] at this
            rcases this with h | h
            · exact h
            · exact absurd (by simpa using h) (Ne.symm hqp)

end Snapshot

/-! ## Executor lemmas: hook and trace structure -/

namespace Runner

theorem runHook_mem (r : Runner) (env : Env) (cmd scope name hn : String) :
    ∀ ev ∈ (r.runHook env cmd scope name hn).1,
      ev = .hookRun hn scope name cmd ∨ ev = .hookDryRun hn scope cmd := by
  intro ev hev
  unfold runHook at hev
  by_cases h1 : cmd = ""
  · simp [h1] at hev
  · rw [if_neg h1] at hev
    by_cases h2 : r.DryRun = true
    · rw [if_pos h2] at hev
      simp at hev
      right; exact hev
    · rw [if_neg h2] at hev
      cases h3 : env.shellRun cmd <;> rw [h3] at hev <;> simp at hev <;>
        (left; exact hev)

theorem runHook_dry_ok (r : Runner) (env : Env) (cmd scope name hn : String)
    (h : r.DryRun = true) : (r.runHook env cmd scope name hn).2 = .ok () := by
  unfold runHook
  by_cases h1 : cmd = ""
  · simp [h1]
  · rw [if_neg h1, if_pos h]

theorem runHook_dry_no_hookRun (r : Runner) (env : Env) (cmd scope name hn : String)
    (h : r.DryRun = true) :
    ∀ ev ∈ (r.runHook env cmd scope name hn).1, ∃ c, ev = Event.hookDryRun hn scope c := by
  intro ev hev
  unfold runHook at hev
  by_cases h1 : cmd = ""
  · simp [h1] at hev
  · rw [if_neg h1, if_pos h] at hev
    simp at hev
    exact ⟨cmd, hev⟩

theorem runHook_real_trace (r : Runner) (env : Env) (cmd scope name hn : String)
    (hc : cmd ≠ "") (hd : r.DryRun = false) :
    (r.runHook env cmd scope name hn).1 = [Event.hookRun hn scope name cmd] := by
  unfold runHook
  rw [if_neg hc, if_neg (by simp [hd])]
  cases env.shellRun cmd <;> rfl

theorem runHook_real_ok (r : Runner) (env : Env) (cmd scope name hn : String)
    (hc : cmd ≠ "") (hd : r.DryRun = false) (h : env.shellRun cmd = .ok ()) :
    (r.runHook env cmd scope name hn).2 = .ok () := by
  unfold runHook
  rw [if_neg hc, if_neg (by simp [hd]), h]

theorem runHook_real_error (r : Runner) (env : Env) (cmd scope name hn e : String)
    (hc : cmd ≠ "") (hd : r.DryRun = false) (h : env.shellRun cmd = .error e) :
    (r.runHook env cmd scope name hn).2
      = .error ("hook " ++ hn ++ " failed on " ++ scope ++ " \"" ++ name ++ "\": " ++ e) := by
  unfold runHook
  rw [if_neg hc, if_neg (by simp [hd]), h]

theorem runHook_ok_shell (r : Runner) (env : Env) (cmd scope name hn : String)
    (hc : cmd ≠ "") (hd : r.DryRun = false)
    (h : (r.runHook env cmd scope name hn).2 = .ok ()) : env.shellRun cmd = .ok () := by
  unfold runHook at h
  rw [if_neg hc, if_neg (by simp [hd])] at h
  cases h3 : env.shellRun cmd
  · rw [h3] at h
    simp at h
  · rfl

theorem itemMain_events (r : Runner) (env : Env) (mod : Module) (item : Item)
    (action : Action) (snapActive : Bool) (P : Event → Prop)
    (hhook : ∀ cmd hn, ∀ ev ∈ (r.runHook env cmd "item" (action.describe env) hn).1, P ev)
    (hrec : snapActive = true → ∀ p, P (Event.snapRecord p))
    (hrun : P (Event.actionRun action r.DryRun))
    (haudF : ∀ e, P (Event.audit
      ⟨r.Command, mod.Name, action.describe env, "failure", e⟩))
    (haudS : P (Event.audit
      ⟨r.Command, mod.Name, action.describe env, "success", ""⟩))
    (hver : r.DryRun = false → ∀ cmd, P (Event.verifyRun cmd)) :
    ∀ ev ∈ (r.itemMain env mod item action snapActive).1, P ev := by
  intro ev hev
  unfold itemMain at hev
  dsimp only at hev
  split at hev
  next t e heq =>
    exact hhook _ _ ev (by rw [heq]; exact hev)
  next t₁ a heq1 =>
    have H₁ : ∀ ev ∈ t₁, P ev := fun ev h => hhook _ _ ev (by rw [heq1]; exact h)
    split at hev
    next t e heq2 =>
      rcases List.mem_append.1 hev with h | h
      · exact H₁ ev h
      · by_cases hs : (item.itemType = "file" ∨ item.itemType = "directory")
            ∧ r.fileDirection item = "sync"
        · rw [if_pos hs] at heq2
          exact hhook _ _ ev (by rw [heq2]; exact h)
        · rw [if_neg hs] at heq2
          simp at heq2
    next t₂ a2 heq2 =>
      have H₂ : ∀ ev ∈ t₂, P ev := by
        intro ev h
        by_cases hs : (item.itemType = "file" ∨ item.itemType = "directory")
            ∧ r.fileDirection item = "sync"
        · rw [if_pos hs] at heq2
          exact hhook _ _ ev (by rw [heq2]; exact h)
        · rw [if_neg hs] at heq2
          cases heq2
          simp at h
      split at hev
      next t e heq3 =>
        rcases List.mem_append.1 hev with h | h
        rcases List.mem_append.1 h with h | h
        · exact H₁ ev h
        · exact H₂ ev h
        · by_cases hrc : snapActive = true
              ∧ (item.itemType = "file" ∨ item.itemType = "directory")
          · rw [if_pos hrc] at heq3
            by_cases hde : item.Destination.ForOS r.OS ≠ ""
                ∧ (if item.itemType = "directory" then item.Directory else item.File) ≠ ""
            · rw [if_pos hde] at heq3
              split at heq3 <;> cases heq3 <;> simp at h <;>
                (subst h; exact hrec hrc.1 _)
            · rw [if_neg hde] at heq3
              simp at heq3
          · rw [if_neg hrc] at heq3
            simp at heq3
      next t₃ a3 heq3 =>
        have H₃ : ∀ ev ∈ t₃, P ev := by
          intro ev h
          by_cases hrc : snapActive = true
              ∧ (item.itemType = "file" ∨ item.itemType = "directory")
          · rw [if_pos hrc] at heq3
            by_cases hde : item.Destination.ForOS r.OS ≠ ""
                ∧ (if item.itemType = "directory" then item.Directory else item.File) ≠ ""
            · rw [if_pos hde] at heq3
              split at heq3
              · cases heq3
                simp at h
                subst h
                exact hrec hrc.1 _
              · cases heq3
            · rw [if_neg hde] at heq3
              cases heq3
              simp at h
          · rw [if_neg hrc] at heq3
            cases heq3
            simp at h
        split at hev
        next e heq4 =>
          simp only [List.append_assoc, List.mem_append, List.mem_cons,
            List.not_mem_nil, or_false] at hev
          rcases hev with h | h | h | h | h
          · exact H₁ ev h
          · exact H₂ ev h
          · exact H₃ ev h
          · subst h; exact hrun
          · subst h; exact haudF _
        next a4 heq4 =>
          split at hev
          next t e heq5 =>
            simp only [List.append_assoc, List.mem_append, List.mem_cons,
              List.not_mem_nil, or_false] at hev
            rcases hev with h | h | h | (h | h) | h
            · exact H₁ ev h
            · exact H₂ ev h
            · exact H₃ ev h
            · subst h; exact hrun
            · subst h; exact haudS
            · by_cases hvf : item.Verify ≠ "" ∧ ¬ r.DryRun = true
              · rw [if_pos hvf] at heq5
                split at heq5 <;> cases heq5
                simp at h
                subst h
                exact hver (by simpa using hvf.2) _
              · rw [if_neg hvf] at heq5
                simp at heq5
          next t₅ a5 heq5 =>
            have H₅ : ∀ ev ∈ t₅, P ev := by
              intro ev h
              by_cases hvf : item.Verify ≠ "" ∧ ¬ r.DryRun = true
              · rw [if_pos hvf] at heq5
                split at heq5 <;> cases heq5
                simp at h
                subst h
                exact hver (by simpa using hvf.2) _
              · rw [if_neg hvf] at heq5
                cases heq5
                simp at h
            split at hev
            next t e heq6 =>
              simp only [List.append_assoc, List.mem_append, List.mem_cons,
                List.not_mem_nil, or_false] at hev
              rcases hev with h | h | h | (h | h) | h | h
              · exact H₁ ev h
              · exact H₂ ev h
              · exact H₃ ev h
              · subst h; exact hrun
              · subst h; exact haudS
              · exact H₅ ev h
              · by_cases hs : (item.itemType = "file" ∨ item.itemType = "directory")
                    ∧ r.fileDirection item = "sync"
                · rw [if_pos hs] at heq6
                  exact hhook _ _ ev (by rw [heq6]; exact h)
                · rw [if_neg hs] at heq6
                  simp at heq6
            next t₆ a6 heq6 =>
              have H₆ : ∀ ev ∈ t₆, P ev := by
                intro ev h
                by_cases hs : (item.itemType = "file" ∨ item.itemType = "directory")
                    ∧ r.fileDirection item = "sync"
                · rw [if_pos hs] at heq6
                  exact hhook _ _ ev (by rw [heq6]; exact h)
                · rw [if_neg hs] at heq6
                  cases heq6
                  simp at h
              split at hev
              next t e heq7 =>
                simp only [List.append_assoc, List.mem_append, List.mem_cons,
                  List.not_mem_nil, or_false] at hev
                rcases hev with h | h | h | (h | h) | h | h | h
                · exact H₁ ev h
                · exact H₂ ev h
                · exact H₃ ev h
                · subst h; exact hrun
                · subst h; exact haudS
                · exact H₅ ev h
                · exact H₆ ev h
                · exact hhook _ _ ev (by rw [heq7]; exact h)
              next t₇ res heq7 =>
                simp only [List.append_assoc, List.mem_append, List.mem_cons,
                  List.not_mem_nil, or_false] at hev
                rcases hev with h | h | h | (h | h) | h | h | h
                · exact H₁ ev h
                · exact H₂ ev h
                · exact H₃ ev h
                · subst h; exact hrun
                · subst h; exact haudS
                · exact H₅ ev h
                · exact H₆ ev h
                · exact hhook _ _ ev (by rw [heq7]; exact h)

theorem itemIdemPhase_events (r : Runner) (env : Env) (mod : Module) (item : Item)
    (action : Action) (snapActive : Bool) (P : Event → Prop)
    (hhook : ∀ cmd hn, ∀ ev ∈ (r.runHook env cmd "item" (action.describe env) hn).1, P ev)
    (hrec : snapActive = true → ∀ p, P (Event.snapRecord p))
    (hrun : P (Event.actionRun action r.DryRun))
    (haudF : ∀ e, P (Event.audit
      ⟨r.Command, mod.Name, action.describe env, "failure", e⟩))
    (haudS : P (Event.audit
      ⟨r.Command, mod.Name, action.describe env, "success", ""⟩))
    (haudK : P (Event.audit
      ⟨r.Command, mod.Name, action.describe env, "skipped", ""⟩))
    (hver : r.DryRun = false → ∀ cmd, P (Event.verifyRun cmd))
    (hquery : P (Event.isAppliedQuery action)) :
    ∀ ev ∈ (r.itemIdemPhase env mod item action snapActive).1, P ev := by
  intro ev hev
  unfold itemIdemPhase at hev
  by_cases hcap : action.isIdempotent = true
  · rw [if_pos hcap] at hev
    split at hev
    next e heq =>
      simp at hev
      subst hev
      exact hquery
    next heq =>
      simp at hev
      rcases hev with h | h
      · subst h; exact hquery
      · subst h; exact haudK
    next heq =>
      dsimp only at hev
      rcases List.mem_cons.1 hev with h | h
      · subst h; exact hquery
      · exact itemMain_events r env mod item action snapActive P hhook hrec hrun
          haudF haudS hver ev h
  · rw [if_neg hcap] at hev
    exact itemMain_events r env mod item action snapActive P hhook hrec hrun
      haudF haudS hver ev hev

theorem applyItem_events (r : Runner) (env : Env) (mod : Module) (item : Item)
    (snapActive : Bool) (P : Event → Prop)
    (hhook : ∀ cmd name hn, ∀ ev ∈ (r.runHook env cmd "item" name hn).1, P ev)
    (hrec : snapActive = true → ∀ p, P (Event.snapRecord p))
    (hrun : ∀ a, P (Event.actionRun a r.DryRun))
    (haudF : ∀ a e, P (Event.audit
      ⟨r.Command, mod.Name, Action.describe env a, "failure", e⟩))
    (haudS : ∀ a, P (Event.audit
      ⟨r.Command, mod.Name, Action.describe env a, "success", ""⟩))
    (haudK : ∀ a, P (Event.audit
      ⟨r.Command, mod.Name, Action.describe env a, "skipped", ""⟩))
    (hver : r.DryRun = false → ∀ cmd, P (Event.verifyRun cmd))
    (hquery : ∀ a, P (Event.isAppliedQuery a))
    (hskip : ∀ cmd, P (Event.skipIfEval cmd)) :
    ∀ ev ∈ (r.applyItem env mod item snapActive).1, P ev := by
  intro ev hev
  unfold applyItem at hev
  split at hev
  next e heq => simp at hev
  next heq => simp at hev
  next action heq =>
    by_cases hsk : item.SkipIf ≠ ""
    · rw [if_pos hsk] at hev
      split at hev
      next e heq2 =>
        simp at hev
        subst hev
        exact hskip _
      next heq2 =>
        simp at hev
        rcases hev with h | h
        · subst h; exact hskip _
        · subst h; exact haudK action
      next heq2 =>
        dsimp only at hev
        rcases List.mem_cons.1 hev with h | h
        · subst h; exact hskip _
        · exact itemIdemPhase_events r env mod item action snapActive P
            (fun cmd hn => hhook cmd _ hn) hrec (hrun action) (haudF action)
            (haudS action) (haudK action) hver (hquery action) ev h
    · rw [if_neg hsk] at hev
      exact itemIdemPhase_events r env mod item action snapActive P
        (fun cmd hn => hhook cmd _ hn) hrec (hrun action) (haudF action)
        (haudS action) (haudK action) hver (hquery action) ev hev

theorem applyLoop_events (r : Runner) (env : Env) (mod : Module)
    (snapActive : Bool) (P : Event → Prop)
    (hhook : ∀ cmd name hn, ∀ ev ∈ (r.runHook env cmd "item" name hn).1, P ev)
    (hrec : snapActive = true → ∀ p, P (Event.snapRecord p))
    (hrun : ∀ a, P (Event.actionRun a r.DryRun))
    (haudF : ∀ a e, P (Event.audit
      ⟨r.Command, mod.Name, Action.describe env a, "failure", e⟩))
    (haudS : ∀ a, P (Event.audit
      ⟨r.Command, mod.Name, Action.describe env a, "success", ""⟩))
    (haudK : ∀ a, P (Event.audit
      ⟨r.Command, mod.Name, Action.describe env a, "skipped", ""⟩))
    (hver : r.DryRun = false → ∀ cmd, P (Event.verifyRun cmd))
    (hquery : ∀ a, P (Event.isAppliedQuery a))
    (hskip : ∀ cmd, P (Event.skipIfEval cmd)) :
    ∀ l, ∀ ev ∈ (r.applyLoop env mod snapActive l).1, P ev := by
  intro l
  induction l with
  | nil => intro ev hev; simp [applyLoop] at hev
  | cons item rest ih =>
    intro ev hev
    unfold applyLoop at hev
    split at hev
    next t e heq =>
      exact applyItem_events r env mod item snapActive P hhook hrec hrun haudF
        haudS haudK hver hquery hskip ev (by rw [heq]; exact hev)
    next t a heq =>
      dsimp only at hev
      rcases List.mem_append.1 hev with h | h
      · exact applyItem_events r env mod item snapActive P hhook hrec hrun haudF
          haudS haudK hver hquery hskip ev (by rw [heq]; exact h)
      · exact ih ev h

theorem applyItems_events (r : Runner) (env : Env) (mod : Module)
    (snapActive : Bool) (P : Event → Prop)
    (hloop : ∀ ev ∈ (r.applyLoop env mod snapActive mod.Items).1, P ev)
    (hbs : ∀ ev ∈ (r.runHook env mod.Hooks.BeforeSync "module" mod.Name "before_sync").1, P ev)
    (has : ∀ ev ∈ (r.runHook env mod.Hooks.AfterSync "module" mod.Name "after_sync").1, P ev) :
    ∀ ev ∈ (r.applyItems env mod snapActive).1, P ev := by
  intro ev hev
  unfold applyItems at hev
  by_cases hsy : r.hasSyncItem mod = true
  · rw [if_pos hsy] at hev
    split at hev
    next t e heq =>
      exact hbs ev (by rw [heq]; exact hev)
    next t1 a heq =>
      split at hev
      next t2 e heq2 =>
        rcases List.mem_append.1 hev with h | h
        · exact hbs ev (by rw [heq]; exact h)
        · exact hloop ev (by rw [heq2]; exact h)
      next t2 a2 heq2 =>
        split at hev
        next t3 res heq3 =>
          simp only [List.append_assoc, List.mem_append] at hev
          rcases hev with h | h | h
          · exact hbs ev (by rw [heq]; exact h)
          · exact hloop ev (by rw [heq2]; exact h)
          · exact has ev (by rw [heq3]; exact h)
  · rw [if_neg hsy] at hev
    exact hloop ev hev

end Runner

/-! ## Ordering, counting, and shape lemmas -/

theorem mem_left_of_split {α : Type} (q : α → Bool) :
    ∀ (pre rest l₁ l₂ : List α) (ev : α),
      pre ++ rest = l₁ ++ ev :: l₂ → q ev = true →
      (∀ x ∈ pre, q x = false) → ∀ b ∈ pre, b ∈ l₁ := by
  intro pre
  induction pre with
  | nil => intro rest l₁ l₂ ev _ _ _ b hb; simp at hb
  | cons a pre ih =>
    intro rest l₁ l₂ ev heq hev hnone b hb
    cases l₁ with
    | nil =>
      simp only [List.nil_append, List.cons_append, List.cons.injEq] at heq
      rw [← heq.1] at hev
      have := hnone a (by simp)
      rw [hev] at this
      cases this
    | cons c l₁ =>
      simp only [List.cons_append, List.cons.injEq] at heq
      rcases List.mem_cons.1 hb with h | h
      · subst h; rw [heq.1]; simp
      · have := ih rest l₁ l₂ ev heq.2 hev
          (fun x hx => hnone x (by simp [hx])) b h
        simp [this]

namespace Runner

theorem countAudit_append (a b : List Event) :
    countAudit (a ++ b) = countAudit a + countAudit b := by
  unfold countAudit
  rw [List.countP_append]

theorem countAudit_zero_of (t : List Event)
    (h : ∀ ev ∈ t, ev.isAudit = false) : countAudit t = 0 := by
  unfold countAudit
  exact List.countP_eq_zero.mpr (by intro a ha; simp [h a ha])

theorem countAudit_runHook (r : Runner) (env : Env) (cmd scope name hn : String) :
    countAudit (r.runHook env cmd scope name hn).1 = 0 := by
  apply countAudit_zero_of
  intro ev hev
  rcases runHook_mem r env cmd scope name hn ev hev with h | h <;> subst h <;> rfl

theorem countAudit_run_audit (a : Action) (d : Bool) (en : AuditEntry) :
    countAudit [Event.actionRun a d, Event.audit en] = 1 := by
  simp [countAudit, List.countP_cons, Event.isAudit]

end Runner

/-! ## Item type and action builder lemmas -/

theorem itemType_mem (i : Item) :
    i.itemType = "package" ∨ i.itemType = "script" ∨ i.itemType = "setting"
    ∨ i.itemType = "file" ∨ i.itemType = "directory" ∨ i.itemType = "binary"
    ∨ i.itemType = "run" ∨ i.itemType = "unknown" := by
  unfold Item.itemType
  split_ifs <;> simp

namespace Runner

theorem buildAction_no_error (r : Runner) (item : Item)
    (h : item.itemType ≠ "unknown") : ∃ o, r.buildAction item = .ok o := by
  unfold buildAction
  rcases itemType_mem item with ht | ht | ht | ht | ht | ht | ht | ht
  · rw [ht, if_pos rfl]
    by_cases hs : r.skipManager item.Via = true
    · rw [if_pos hs]; exact ⟨none, rfl⟩
    · rw [if_neg hs]; exact ⟨some _, rfl⟩
  · rw [ht, if_neg (by decide), if_pos rfl]; exact ⟨some _, rfl⟩
  · rw [ht, if_neg (by decide), if_neg (by decide), if_neg (by decide),
      if_neg (by decide), if_neg (by decide), if_neg (by decide), if_pos rfl]
    exact ⟨some _, rfl⟩
  · rw [ht, if_neg (by decide), if_neg (by decide), if_pos rfl]
    by_cases hd : item.Destination.ForOS r.OS = ""
    · rw [if_pos hd]; exact ⟨none, rfl⟩
    · rw [if_neg hd]; exact ⟨some _, rfl⟩
  · rw [ht, if_neg (by decide), if_neg (by decide), if_neg (by decide), if_pos rfl]
    by_cases hd : item.Destination.ForOS r.OS = ""
    · rw [if_pos hd]; exact ⟨none, rfl⟩
    · rw [if_neg hd]; exact ⟨some _, rfl⟩
  · rw [ht, if_neg (by decide), if_neg (by decide), if_neg (by decide),
      if_neg (by decide), if_pos rfl]
    by_cases hd : item.Source.ForOS r.OS = ""
    · rw [if_pos hd]; exact ⟨none, rfl⟩
    · rw [if_neg hd]; exact ⟨some _, rfl⟩
  · rw [ht, if_neg (by decide), if_neg (by decide), if_neg (by decide),
      if_neg (by decide), if_neg (by decide), if_pos rfl]
    exact ⟨some _, rfl⟩
  · exact absurd ht h

theorem isAudit_actionRun (a : Action) (d : Bool) :
    (Event.actionRun a d).isAudit = false := rfl

theorem isAudit_audit (en : AuditEntry) : (Event.audit en).isAudit = true := rfl

theorem countAudit_nil : countAudit [] = 0 := rfl

theorem countAudit_cons (ev : Event) (t : List Event) :
    countAudit (ev :: t) = countAudit t + (if ev.isAudit = true then 1 else 0) := by
  unfold countAudit
  rw [List.countP_cons]

theorem itemMain_countAudit_le_one (r : Runner) (env : Env) (mod : Module)
    (item : Item) (action : Action) (snapActive : Bool) :
    countAudit (r.itemMain env mod item action snapActive).1 ≤ 1 := by
  unfold itemMain
  dsimp only
  split
  next t e heq =>
    have c : countAudit t = 0 := by
      have h := countAudit_runHook r env item.Hooks.BeforeApply "item"
        (action.describe env) "before_apply"
      rw [heq] at h
      exact h
    simp [c]
  next t₁ a heq1 =>
    have c₁ : countAudit t₁ = 0 := by
      have h := countAudit_runHook r env item.Hooks.BeforeApply "item"
        (action.describe env) "before_apply"
      rw [heq1] at h
      exact h
    split
    next t e heq2 =>
      have c₂ : countAudit t = 0 := by
        by_cases hs : (item.itemType = "file" ∨ item.itemType = "directory")
            ∧ r.fileDirection item = "sync"
        · rw [if_pos hs] at heq2
          have h := countAudit_runHook r env item.Hooks.BeforeSync "item"
            (action.describe env) "before_sync"
          rw [heq2] at h
          exact h
        · rw [if_neg hs] at heq2
          simp at heq2
      simp [countAudit_append, c₁, c₂]
    next t₂ a2 heq2 =>
      have c₂ : countAudit t₂ = 0 := by
        by_cases hs : (item.itemType = "file" ∨ item.itemType = "directory")
            ∧ r.fileDirection item = "sync"
        · rw [if_pos hs] at heq2
          have h := countAudit_runHook r env item.Hooks.BeforeSync "item"
            (action.describe env) "before_sync"
          rw [heq2] at h
          exact h
        · rw [if_neg hs] at heq2
          cases heq2
          rfl
      split
      next t e heq3 =>
        have c₃ : countAudit t = 0 := by
          by_cases hrc : snapActive = true
              ∧ (item.itemType = "file" ∨ item.itemType = "directory")
          · rw [if_pos hrc] at heq3
            by_cases hde : item.Destination.ForOS r.OS ≠ ""
                ∧ (if item.itemType = "directory" then item.Directory else item.File) ≠ ""
            · rw [if_pos hde] at heq3
              split at heq3 <;> cases heq3
              rfl
            · rw [if_neg hde] at heq3
              simp at heq3
          · rw [if_neg hrc] at heq3
            simp at heq3
        simp [countAudit_append, c₁, c₂, c₃]
      next t₃ a3 heq3 =>
        have c₃ : countAudit t₃ = 0 := by
          by_cases hrc : snapActive = true
              ∧ (item.itemType = "file" ∨ item.itemType = "directory")
          · rw [if_pos hrc] at heq3
            by_cases hde : item.Destination.ForOS r.OS ≠ ""
                ∧ (if item.itemType = "directory" then item.Directory else item.File) ≠ ""
            · rw [if_pos hde] at heq3
              split at heq3 <;> cases heq3
              rfl
            · rw [if_neg hde] at heq3
              cases heq3
              rfl
          · rw [if_neg hrc] at heq3
            cases heq3
            rfl
        split
        next e heq4 =>
          simp [countAudit_append, countAudit_cons, countAudit_nil, isAudit_actionRun, isAudit_audit, c₁, c₂, c₃]
        next a4 heq4 =>
          split
          next t e heq5 =>
            have c₅ : countAudit t = 0 := by
              by_cases hvf : item.Verify ≠ "" ∧ ¬ r.DryRun = true
              · rw [if_pos hvf] at heq5
                split at heq5 <;> cases heq5
                rfl
              · rw [if_neg hvf] at heq5
                simp at heq5
            simp [countAudit_append, countAudit_cons, countAudit_nil, isAudit_actionRun, isAudit_audit, c₁, c₂, c₃, c₅]
          next t₅ a5 heq5 =>
            have c₅ : countAudit t₅ = 0 := by
              by_cases hvf : item.Verify ≠ "" ∧ ¬ r.DryRun = true
              · rw [if_pos hvf] at heq5
                split at heq5 <;> cases heq5
                rfl
              · rw [if_neg hvf] at heq5
                cases heq5
                rfl
            split
            next t e heq6 =>
              have c₆ : countAudit t = 0 := by
                by_cases hs : (item.itemType = "file" ∨ item.itemType = "directory")
                    ∧ r.fileDirection item = "sync"
                · rw [if_pos hs] at heq6
                  have h := countAudit_runHook r env item.Hooks.AfterSync "item"
                    (action.describe env) "after_sync"
                  rw [heq6] at h
                  exact h
                · rw [if_neg hs] at heq6
                  simp at heq6
              simp [countAudit_append, countAudit_cons, countAudit_nil, isAudit_actionRun, isAudit_audit, c₁, c₂, c₃, c₅, c₆]
            next t₆ a6 heq6 =>
              have c₆ : countAudit t₆ = 0 := by
                by_cases hs : (item.itemType = "file" ∨ item.itemType = "directory")
                    ∧ r.fileDirection item = "sync"
                · rw [if_pos hs] at heq6
                  have h := countAudit_runHook r env item.Hooks.AfterSync "item"
                    (action.describe env) "after_sync"
                  rw [heq6] at h
                  exact h
                · rw [if_neg hs] at heq6
                  cases heq6
                  rfl
              split
              next t e heq7 =>
                have c₇ : countAudit t = 0 := by
                  have h := countAudit_runHook r env item.Hooks.AfterApply "item"
                    (action.describe env) "after_apply"
                  rw [heq7] at h
                  exact h
                simp [countAudit_append, countAudit_cons, countAudit_nil, isAudit_actionRun, isAudit_audit, c₁, c₂, c₃, c₅, c₆, c₇]
              next t₇ res hne heq7 =>
                have c₇ : countAudit t₇ = 0 := by
                  have h := countAudit_runHook r env item.Hooks.AfterApply "item"
                    (action.describe env) "after_apply"
                  rw [heq7] at h
                  exact h
                simp [countAudit_append, countAudit_cons, countAudit_nil, isAudit_actionRun, isAudit_audit, c₁, c₂, c₃, c₅, c₆, c₇]

theorem itemIdemPhase_countAudit_le_one (r : Runner) (env : Env) (mod : Module)
    (item : Item) (action : Action) (snapActive : Bool) :
    countAudit (r.itemIdemPhase env mod item action snapActive).1 ≤ 1 := by
  unfold itemIdemPhase
  by_cases hcap : action.isIdempotent = true
  · rw [if_pos hcap]
    split
    next e heq => simp [countAudit, List.countP_cons, Event.isAudit]
    next heq => simp [countAudit, List.countP_cons, Event.isAudit]
    next heq =>
      dsimp only
      have h := itemMain_countAudit_le_one r env mod item action snapActive
      simpa [countAudit, List.countP_cons, Event.isAudit] using h
  · rw [if_neg hcap]
    exact itemMain_countAudit_le_one r env mod item action snapActive

theorem applyItem_countAudit_le_one (r : Runner) (env : Env) (mod : Module)
    (item : Item) (snapActive : Bool) :
    countAudit (r.applyItem env mod item snapActive).1 ≤ 1 := by
  unfold applyItem
  split
  next e heq => simp [countAudit]
  next heq => simp [countAudit]
  next action heq =>
    by_cases hsk : item.SkipIf ≠ ""
    · rw [if_pos hsk]
      split
      next e heq2 => simp [countAudit, List.countP_cons, Event.isAudit]
      next heq2 => simp [countAudit, List.countP_cons, Event.isAudit]
      next heq2 =>
        dsimp only
        have h := itemIdemPhase_countAudit_le_one r env mod item action snapActive
        simpa [countAudit, List.countP_cons, Event.isAudit] using h
    · rw [if_neg hsk]
      exact itemIdemPhase_countAudit_le_one r env mod item action snapActive

theorem applyItem_audit_outcomes (r : Runner) (env : Env) (mod : Module)
    (item : Item) (snapActive : Bool) :
    ∀ en, Event.audit en ∈ (r.applyItem env mod item snapActive).1 →
      en.Outcome = "skipped" ∨ en.Outcome = "success" ∨ en.Outcome = "failure" := by
  intro en hen
  exact applyItem_events r env mod item snapActive
    (fun ev => ∀ en', ev = Event.audit en' →
      en'.Outcome = "skipped" ∨ en'.Outcome = "success" ∨ en'.Outcome = "failure")
    (by
      intro cmd name hn ev hev en' heq
      rcases runHook_mem r env cmd "item" name hn ev hev with h | h <;>
        (subst h; simp at heq))
    (by intro _ p en' heq; simp at heq)
    (by intro a en' heq; simp at heq)
    (by intro a e en' heq; cases heq; simp)
    (by intro a en' heq; cases heq; simp)
    (by intro a en' heq; cases heq; simp)
    (by intro _ cmd en' heq; simp at heq)
    (by intro a en' heq; simp at heq)
    (by intro cmd en' heq; simp at heq)
    (Event.audit en) hen en rfl

/-! ## Error wrapping: every item error carries the module name marker -/

theorem itemMain_error_wrapped (r : Runner) (env : Env) (mod : Module)
    (item : Item) (action : Action) (snapActive : Bool) (e : String)
    (h : (r.itemMain env mod item action snapActive).2 = .error e) :
    ∃ rest, e = "module \"" ++ mod.Name ++ "\": " ++ rest := by
  unfold itemMain at h
  dsimp only at h
  split at h
  next t e' heq =>
    simp only [Except.error.injEq] at h
    exact ⟨e', h.symm⟩
  next t₁ a heq1 =>
    split at h
    next t e' heq2 =>
      simp only [Except.error.injEq] at h
      exact ⟨e', h.symm⟩
    next t₂ a2 heq2 =>
      split at h
      next t e' heq3 =>
        simp only [Except.error.injEq] at h
        subst h
        by_cases hrc : snapActive = true
            ∧ (item.itemType = "file" ∨ item.itemType = "directory")
        · rw [if_pos hrc] at heq3
          by_cases hde : item.Destination.ForOS r.OS ≠ ""
              ∧ (if item.itemType = "directory" then item.Directory else item.File) ≠ ""
          · rw [if_pos hde] at heq3
            cases hrp : env.recordPath (env.pathJoin
                (env.expandPath (item.Destination.ForOS r.OS))
                (env.baseName (if item.itemType = "directory" then item.Directory
                  else item.File))) with
            | error e0 =>
              rw [hrp] at heq3
              simp only [Prod.mk.injEq, Except.error.injEq] at heq3
              refine ⟨"snapshot " ++ env.pathJoin
                (env.expandPath (item.Destination.ForOS r.OS))
                (env.baseName (if item.itemType = "directory" then item.Directory
                  else item.File)) ++ ": " ++ e0, ?_⟩
              rw [← heq3.2]
              rw [show ("\": snapshot " : String) = "\": " ++ "snapshot " from rfl]
              simp only [String.append_assoc]
            | ok u =>
              rw [hrp] at heq3
              simp at heq3
          · rw [if_neg hde] at heq3
            simp at heq3
        · rw [if_neg hrc] at heq3
          simp at heq3
      next t₃ a3 heq3 =>
        split at h
        next e' heq4 =>
          simp only [Except.error.injEq] at h
          exact ⟨e', h.symm⟩
        next a4 heq4 =>
          split at h
          next t e' heq5 =>
            simp only [Except.error.injEq] at h
            subst h
            by_cases hvf : item.Verify ≠ "" ∧ ¬ r.DryRun = true
            · rw [if_pos hvf] at heq5
              cases hvr : env.shellRun item.Verify with
              | error e0 =>
                rw [hvr] at heq5
                simp only [Prod.mk.injEq, Except.error.injEq] at heq5
                refine ⟨"verify failed for \"" ++ action.describe env
                  ++ "\": " ++ e0, ?_⟩
                rw [← heq5.2]
                rw [show ("\": verify failed for \"" : String)
                  = "\": " ++ "verify failed for \"" from rfl]
                simp only [String.append_assoc]
              | ok u =>
                rw [hvr] at heq5
                simp at heq5
            · rw [if_neg hvf] at heq5
              simp at heq5
          next t₅ a5 heq5 =>
            split at h
            next t e' heq6 =>
              simp only [Except.error.injEq] at h
              exact ⟨e', h.symm⟩
            next t₆ a6 heq6 =>
              split at h
              next t e' heq7 =>
                simp only [Except.error.injEq] at h
                exact ⟨e', h.symm⟩
              next t₇ res hne heq7 =>
                exfalso
                cases res with
                | error e0 => exact hne e0 rfl
                | ok u => simp at h

theorem itemIdemPhase_error_wrapped (r : Runner) (env : Env) (mod : Module)
    (item : Item) (action : Action) (snapActive : Bool) (e : String)
    (h : (r.itemIdemPhase env mod item action snapActive).2 = .error e) :
    ∃ rest, e = "module \"" ++ mod.Name ++ "\": " ++ rest := by
  unfold itemIdemPhase at h
  by_cases hcap : action.isIdempotent = true
  · rw [if_pos hcap] at h
    split at h
    next e0 heq =>
      simp only [Except.error.injEq] at h
      refine ⟨"idempotency check: " ++ e0, ?_⟩
      rw [← h]
      rw [show ("\": idempotency check: " : String)
        = "\": " ++ "idempotency check: " from rfl]
      simp only [String.append_assoc]
    next heq => simp at h
    next heq =>
      dsimp only at h
      exact itemMain_error_wrapped r env mod item action snapActive e h
  · rw [if_neg hcap] at h
    exact itemMain_error_wrapped r env mod item action snapActive e h

theorem applyItem_error_wrapped (r : Runner) (env : Env) (mod : Module)
    (item : Item) (snapActive : Bool) (e : String)
    (h : (r.applyItem env mod item snapActive).2 = .error e) :
    ∃ rest, e = "module \"" ++ mod.Name ++ "\": " ++ rest := by
  unfold applyItem at h
  split at h
  next e0 heq =>
    simp only [Except.error.injEq] at h
    exact ⟨e0, h.symm⟩
  next heq => simp at h
  next action heq =>
    by_cases hsk : item.SkipIf ≠ ""
    · rw [if_pos hsk] at h
      split at h
      next e0 heq2 =>
        simp only [Except.error.injEq] at h
        refine ⟨"skip_if eval failed: " ++ e0, ?_⟩
        rw [← h]
        rw [show ("\": skip_if eval failed: " : String)
          = "\": " ++ "skip_if eval failed: " from rfl]
        simp only [String.append_assoc]
      next heq2 => simp at h
      next heq2 =>
        dsimp only at h
        exact itemIdemPhase_error_wrapped r env mod item action snapActive e h
    · rw [if_neg hsk] at h
      exact itemIdemPhase_error_wrapped r env mod item action snapActive e h

/-! ## Dry-run behaviour -/

theorem itemMain_dry_ok (r : Runner) (env : Env) (mod : Module) (item : Item)
    (action : Action) (snapActive : Bool)
    (hdry : r.DryRun = true) (hsa : snapActive = false)
    (hrd : action.runDry = .ok ()) :
    (r.itemMain env mod item action snapActive).2 = .ok () := by
  unfold itemMain
  dsimp only
  split
  next t e heq =>
    exfalso
    have hd := runHook_dry_ok r env item.Hooks.BeforeApply "item"
      (action.describe env) "before_apply" hdry
    rw [heq] at hd
    simp at hd
  next t₁ a heq1 =>
    split
    next t e heq2 =>
      exfalso
      by_cases hs : (item.itemType = "file" ∨ item.itemType = "directory")
          ∧ r.fileDirection item = "sync"
      · rw [if_pos hs] at heq2
        have hd := runHook_dry_ok r env item.Hooks.BeforeSync "item"
          (action.describe env) "before_sync" hdry
        rw [heq2] at hd
        simp at hd
      · rw [if_neg hs] at heq2
        simp at heq2
    next t₂ a2 heq2 =>
      split
      next t e heq3 =>
        exfalso
        rw [if_neg (by simp [hsa])] at heq3
        simp at heq3
      next t₃ a3 heq3 =>
        split
        next e heq4 =>
          exfalso
          rw [if_pos hdry, hrd] at heq4
          simp at heq4
        next a4 heq4 =>
          split
          next t e heq5 =>
            exfalso
            rw [if_neg (by simp [hdry])] at heq5
            simp at heq5
          next t₅ a5 heq5 =>
            split
            next t e heq6 =>
              exfalso
              by_cases hs : (item.itemType = "file" ∨ item.itemType = "directory")
                  ∧ r.fileDirection item = "sync"
              · rw [if_pos hs] at heq6
                have hd := runHook_dry_ok r env item.Hooks.AfterSync "item"
                  (action.describe env) "after_sync" hdry
                rw [heq6] at hd
                simp at hd
              · rw [if_neg hs] at heq6
                simp at heq6
            next t₆ a6 heq6 =>
              split
              next t e heq7 =>
                exfalso
                have hd := runHook_dry_ok r env item.Hooks.AfterApply "item"
                  (action.describe env) "after_apply" hdry
                rw [heq7] at hd
                simp at hd
              next t₇ res hne heq7 =>
                have hd := runHook_dry_ok r env item.Hooks.AfterApply "item"
                  (action.describe env) "after_apply" hdry
                rw [heq7] at hd
                exact hd

theorem itemIdemPhase_dry_ok (r : Runner) (env : Env) (mod : Module) (item : Item)
    (action : Action) (snapActive : Bool)
    (hdry : r.DryRun = true) (hsa : snapActive = false)
    (hrd : action.runDry = .ok ())
    (hia : ∃ b, env.isApplied action = .ok b) :
    (r.itemIdemPhase env mod item action snapActive).2 = .ok () := by
  unfold itemIdemPhase
  by_cases hcap : action.isIdempotent = true
  · rw [if_pos hcap]
    obtain ⟨b, hb⟩ := hia
    rw [hb]
    cases b
    · dsimp only
      exact itemMain_dry_ok r env mod item action snapActive hdry hsa hrd
    · rfl
  · rw [if_neg hcap]
    exact itemMain_dry_ok r env mod item action snapActive hdry hsa hrd

theorem applyItem_dry_ok (r : Runner) (env : Env) (mod : Module) (item : Item)
    (snapActive : Bool)
    (hdry : r.DryRun = true) (hsa : snapActive = false)
    (hty : item.itemType ≠ "unknown")
    (heval : ∀ cmd, ∃ b, env.shellEval cmd = .ok b)
    (hia : ∀ a, ∃ b, env.isApplied a = .ok b)
    (hrd : ∀ a, r.buildAction item = .ok (some a) → a.runDry = .ok ()) :
    (r.applyItem env mod item snapActive).2 = .ok () := by
  unfold applyItem
  obtain ⟨o, ho⟩ := buildAction_no_error r item hty
  rw [ho]
  cases o with
  | none => rfl
  | some action =>
    dsimp only
    by_cases hsk : item.SkipIf ≠ ""
    · rw [if_pos hsk]
      obtain ⟨b, hb⟩ := heval item.SkipIf
      rw [hb]
      cases b
      · dsimp only
        exact itemIdemPhase_dry_ok r env mod item action snapActive hdry hsa
          (hrd action ho) (hia action)
      · rfl
    · rw [if_neg hsk]
      exact itemIdemPhase_dry_ok r env mod item action snapActive hdry hsa
        (hrd action ho) (hia action)

theorem applyLoop_dry_ok (r : Runner) (env : Env) (mod : Module)
    (snapActive : Bool)
    (hdry : r.DryRun = true) (hsa : snapActive = false)
    (heval : ∀ cmd, ∃ b, env.shellEval cmd = .ok b)
    (hia : ∀ a, ∃ b, env.isApplied a = .ok b) :
    ∀ l, (∀ item ∈ l, item.itemType ≠ "unknown") →
      (∀ item ∈ l, ∀ a, r.buildAction item = .ok (some a) → a.runDry = .ok ()) →
      (r.applyLoop env mod snapActive l).2 = .ok () := by
  intro l
  induction l with
  | nil => intro _ _; rfl
  | cons item rest ih =>
    intro h1 h2
    unfold applyLoop
    have hitem := applyItem_dry_ok r env mod item snapActive hdry hsa
      (h1 item (by simp)) heval hia (h2 item (by simp))
    cases hres : r.applyItem env mod item snapActive with
    | mk t res =>
      rw [hres] at hitem
      dsimp at hitem
      rw [hitem]
      dsimp only
      exact ih (fun i hi => h1 i (by simp [hi])) (fun i hi => h2 i (by simp [hi]))

theorem applyItems_dry_ok (r : Runner) (env : Env) (mod : Module)
    (hdry : r.DryRun = true)
    (heval : ∀ cmd, ∃ b, env.shellEval cmd = .ok b)
    (hia : ∀ a, ∃ b, env.isApplied a = .ok b)
    (h1 : ∀ item ∈ mod.Items, item.itemType ≠ "unknown")
    (h2 : ∀ item ∈ mod.Items, ∀ a, r.buildAction item = .ok (some a) → a.runDry = .ok ()) :
    (r.applyItems env mod false).2 = .ok () := by
  unfold applyItems
  have hloop := applyLoop_dry_ok r env mod false hdry rfl heval hia mod.Items h1 h2
  by_cases hsy : r.hasSyncItem mod = true
  · rw [if_pos hsy]
    cases hB : r.runHook env mod.Hooks.BeforeSync "module" mod.Name "before_sync" with
    | mk tB resB =>
      have hBok := runHook_dry_ok r env mod.Hooks.BeforeSync "module" mod.Name
        "before_sync" hdry
      rw [hB] at hBok
      dsimp at hBok
      rw [hBok]
      dsimp only
      cases hL : r.applyLoop env mod false mod.Items with
      | mk tL resL =>
        rw [hL] at hloop
        dsimp at hloop
        rw [hloop]
        dsimp only
        cases hA : r.runHook env mod.Hooks.AfterSync "module" mod.Name "after_sync" with
        | mk tA resA =>
          have hAok := runHook_dry_ok r env mod.Hooks.AfterSync "module" mod.Name
            "after_sync" hdry
          rw [hA] at hAok
          dsimp at hAok
          rw [hAok]
  · rw [if_neg hsy]
    exact hloop

theorem ApplyModule_dry_result (r : Runner) (env : Env) (mod : Module)
    (hdry : r.DryRun = true)
    (heval : ∀ cmd, ∃ b, env.shellEval cmd = .ok b)
    (hia : ∀ a, ∃ b, env.isApplied a = .ok b)
    (h1 : ∀ item ∈ mod.Items, item.itemType ≠ "unknown")
    (h2 : ∀ item ∈ mod.Items, ∀ a, r.buildAction item = .ok (some a) → a.runDry = .ok ()) :
    (r.ApplyModule env mod).2 = .ok () := by
  unfold ApplyModule
  cases hB : r.runHook env mod.Hooks.BeforeApply "module" mod.Name "before_apply" with
  | mk tB resB =>
    have hBok := runHook_dry_ok r env mod.Hooks.BeforeApply "module" mod.Name
      "before_apply" hdry
    rw [hB] at hBok
    dsimp at hBok
    rw [hBok]
    dsimp only
    rw [if_neg (by simp [hdry])]
    have hitems := applyItems_dry_ok r env mod hdry heval hia h1 h2
    cases hI : r.applyItems env mod false with
    | mk tI resI =>
      rw [hI] at hitems
      dsimp at hitems
      rw [hitems]
      dsimp only
      cases hA : r.runHook env mod.Hooks.AfterApply "module" mod.Name "after_apply" with
      | mk tA resA =>
        have hAok := runHook_dry_ok r env mod.Hooks.AfterApply "module" mod.Name
          "after_apply" hdry
        rw [hA] at hAok
        dsimp at hAok
        rw [hAok]

theorem applyItems_dryLegal (r : Runner) (env : Env) (mod : Module)
    (hdry : r.DryRun = true) :
    ∀ ev ∈ (r.applyItems env mod false).1, ev.dryLegal := by
  have hhm : ∀ cmd scope name hn, ∀ ev ∈ (r.runHook env cmd scope name hn).1,
      Event.dryLegal ev := by
    intro cmd scope name hn ev hev
    obtain ⟨c, hc⟩ := runHook_dry_no_hookRun r env cmd scope name hn hdry ev hev
    subst hc
    simp [Event.dryLegal]
  exact applyItems_events r env mod false Event.dryLegal
    (applyLoop_events r env mod false Event.dryLegal
      (fun cmd name hn => hhm cmd "item" name hn)
      (by intro h; simp at h)
      (by intro a; simp [Event.dryLegal, hdry])
      (by intro a e; simp [Event.dryLegal])
      (by intro a; simp [Event.dryLegal])
      (by intro a; simp [Event.dryLegal])
      (by intro h; rw [hdry] at h; simp at h)
      (by intro a; simp [Event.dryLegal])
      (by intro cmd; simp [Event.dryLegal])
      mod.Items)
    (hhm mod.Hooks.BeforeSync "module" mod.Name "before_sync")
    (hhm mod.Hooks.AfterSync "module" mod.Name "after_sync")

theorem ApplyModule_dryLegal (r : Runner) (env : Env) (mod : Module)
    (hdry : r.DryRun = true) :
    ∀ ev ∈ (r.ApplyModule env mod).1, ev.dryLegal := by
  have hhm : ∀ cmd scope name hn, ∀ ev ∈ (r.runHook env cmd scope name hn).1,
      Event.dryLegal ev := by
    intro cmd scope name hn ev hev
    obtain ⟨c, hc⟩ := runHook_dry_no_hookRun r env cmd scope name hn hdry ev hev
    subst hc
    simp [Event.dryLegal]
  intro ev hev
  unfold ApplyModule at hev
  split at hev
  next t e heq => exact hhm _ _ _ _ ev (by rw [heq]; exact hev)
  next t₁ a heq1 =>
    rw [if_neg (by simp [hdry])] at hev
    split at hev
    next t₂ e heq2 =>
      rcases List.mem_append.1 hev with h | h
      · exact hhm _ _ _ _ ev (by rw [heq1]; exact h)
      · exact applyItems_dryLegal r env mod hdry ev (by rw [heq2]; exact h)
    next t₂ a2 heq2 =>
      split at hev
      next t₃ res heq3 =>
        simp only [List.append_assoc, List.mem_append] at hev
        rcases hev with h | h | h
        · exact hhm _ _ _ _ ev (by rw [heq1]; exact h)
        · exact applyItems_dryLegal r env mod hdry ev (by rw [heq2]; exact h)
        · exact hhm _ _ _ _ ev (by rw [heq3]; exact h)

/-! ## VerifyModule lemmas -/

theorem verifyLoop_false_iff (r : Runner) (env : Env) (mod : Module) :
    ∀ l, ((r.verifyLoop env mod l).2 = false
      ↔ ∃ item ∈ l, item.Verify ≠ ""
          ∧ (∃ a, r.buildAction item = .ok (some a))
          ∧ (∃ e, env.shellRun item.Verify = .error e)) := by
  intro l
  induction l with
  | nil => simp [verifyLoop]
  | cons item rest ih =>
    unfold verifyLoop
    dsimp only
    by_cases hv : item.Verify = ""
    · rw [if_pos hv]
      rw [ih]
      constructor
      · rintro ⟨i, hi, hp⟩
        exact ⟨i, by simp [hi], hp⟩
      · rintro ⟨i, hi, hp⟩
        rcases List.mem_cons.1 hi with h | h
        · subst h
          exact absurd hv hp.1
        · exact ⟨i, h, hp⟩
    · rw [if_neg hv]
      cases hb : r.buildAction item with
      | error e =>
        rw [ih]
        constructor
        · rintro ⟨i, hi, hp⟩
          exact ⟨i, by simp [hi], hp⟩
        · rintro ⟨i, hi, hp⟩
          rcases List.mem_cons.1 hi with h | h
          · subst h
            obtain ⟨a, ha⟩ := hp.2.1
            rw [hb] at ha
            cases ha
          · exact ⟨i, h, hp⟩
      | ok o =>
        cases o with
        | none =>
          rw [ih]
          constructor
          · rintro ⟨i, hi, hp⟩
            exact ⟨i, by simp [hi], hp⟩
          · rintro ⟨i, hi, hp⟩
            rcases List.mem_cons.1 hi with h | h
            · subst h
              obtain ⟨a, ha⟩ := hp.2.1
              rw [hb] at ha
              simp at ha
            · exact ⟨i, h, hp⟩
        | some action =>
          cases hs : env.shellRun item.Verify with
          | error e =>
            simp only [Bool.false_eq_true]
            constructor
            · intro _
              exact ⟨item, by simp, hv, ⟨action, hb⟩, ⟨e, hs⟩⟩
            · intro _
              trivial
          | ok u =>
            dsimp only
            rw [ih]
            constructor
            · rintro ⟨i, hi, hp⟩
              exact ⟨i, by simp [hi], hp⟩
            · rintro ⟨i, hi, hp⟩
              rcases List.mem_cons.1 hi with h | h
              · subst h
                obtain ⟨e, he⟩ := hp.2.2
                rw [hs] at he
                cases he
              · exact ⟨i, h, hp⟩

theorem verifyLoop_events (r : Runner) (env : Env) (mod : Module) :
    ∀ l, ∀ ev ∈ (r.verifyLoop env mod l).1,
      (∃ cmd, ev = Event.verifyRun cmd) ∨ (∃ en, ev = Event.audit en) := by
  intro l
  induction l with
  | nil => intro ev hev; simp [verifyLoop] at hev
  | cons item rest ih =>
    intro ev hev
    unfold verifyLoop at hev
    dsimp only at hev
    by_cases hv : item.Verify = ""
    · rw [if_pos hv] at hev
      exact ih ev hev
    · rw [if_neg hv] at hev
      cases hb : r.buildAction item with
      | error e =>
        rw [hb] at hev
        exact ih ev hev
      | ok o =>
        rw [hb] at hev
        cases o with
        | none => exact ih ev hev
        | some action =>
          cases hs : env.shellRun item.Verify with
          | error e =>
            rw [hs] at hev
            rcases List.mem_cons.1 hev with h | h
            · exact Or.inl ⟨_, h⟩
            rcases List.mem_cons.1 h with h2 | h2
            · exact Or.inr ⟨_, h2⟩
            · exact ih ev h2
          | ok u =>
            rw [hs] at hev
            rcases List.mem_cons.1 hev with h | h
            · exact Or.inl ⟨_, h⟩
            rcases List.mem_cons.1 h with h2 | h2
            · exact Or.inr ⟨_, h2⟩
            · exact ih ev h2

/-! ## Non-membership facts about the item phase -/

theorem applyItems_no_snap_lifecycle (r : Runner) (env : Env) (mod : Module)
    (snapActive : Bool) :
    ∀ ev ∈ (r.applyItems env mod snapActive).1,
      (∀ m, ev ≠ Event.snapRestore m) ∧ ev ≠ Event.snapCreate
        ∧ ev ≠ Event.snapDiscard :=
  applyItems_events r env mod snapActive
    (fun ev => (∀ m, ev ≠ Event.snapRestore m) ∧ ev ≠ Event.snapCreate
      ∧ ev ≠ Event.snapDiscard)
    (applyLoop_events r env mod snapActive _
      (by
        intro cmd name hn ev hev
        rcases runHook_mem r env cmd "item" name hn ev hev with h | h <;> subst h <;>
          exact ⟨fun m => by simp, by simp, by simp⟩)
      (by intro _ p; exact ⟨fun m => by simp, by simp, by simp⟩)
      (by intro a; exact ⟨fun m => by simp, by simp, by simp⟩)
      (by intro a e; exact ⟨fun m => by simp, by simp, by simp⟩)
      (by intro a; exact ⟨fun m => by simp, by simp, by simp⟩)
      (by intro a; exact ⟨fun m => by simp, by simp, by simp⟩)
      (by intro _ cmd; exact ⟨fun m => by simp, by simp, by simp⟩)
      (by intro a; exact ⟨fun m => by simp, by simp, by simp⟩)
      (by intro cmd; exact ⟨fun m => by simp, by simp, by simp⟩)
      mod.Items)
    (by
      intro ev hev
      rcases runHook_mem r env _ "module" _ _ ev hev with h | h <;> subst h <;>
        exact ⟨fun m => by simp, by simp, by simp⟩)
    (by
      intro ev hev
      rcases runHook_mem r env _ "module" _ _ ev hev with h | h <;> subst h <;>
        exact ⟨fun m => by simp, by simp, by simp⟩)

theorem applyItems_no_module_hook (r : Runner) (env : Env) (mod : Module)
    (snapActive : Bool) (hn name cmd : String)
    (h1 : hn ≠ "before_sync") (h2 : hn ≠ "after_sync") :
    Event.hookRun hn "module" name cmd ∉ (r.applyItems env mod snapActive).1 := by
  intro hm
  have master := applyItems_events r env mod snapActive
    (fun ev => ev ≠ Event.hookRun hn "module" name cmd)
    (applyLoop_events r env mod snapActive _
      (by
        intro cmd' name' hn' ev hev
        rcases runHook_mem r env cmd' "item" name' hn' ev hev with h | h <;>
          subst h <;> simp)
      (by intro _ p; simp)
      (by intro a; simp)
      (by intro a e; simp)
      (by intro a; simp)
      (by intro a; simp)
      (by intro _ cmd'; simp)
      (by intro a; simp)
      (by intro cmd'; simp)
      mod.Items)
    (by
      intro ev hev
      rcases runHook_mem r env _ "module" _ _ ev hev with h | h <;> subst h
      · intro hEq
        injection hEq with i1 i2 i3 i4
        exact h1 i1.symm
      · simp)
    (by
      intro ev hev
      rcases runHook_mem r env _ "module" _ _ ev hev with h | h <;> subst h
      · intro hEq
        injection hEq with i1 i2 i3 i4
        exact h2 i1.symm
      · simp)
  exact master _ hm rfl

/-! ## Claims about ApplyModule error handling -/

/-- C1.  In an atomic, non-dry-run apply whose before steps succeed, an item
failure makes ApplyModule restore the snapshot and discard its temporary
storage, and the value it returns is exactly the item loop's error even when
Restore itself fails; every error an item evaluation produces is wrapped
with the module name. -/
theorem applyModule_restores_and_returns_item_error (r : Runner) (env : Env)
    (mod : Module) (e rerr : String)
    (hatomic : r.Atomic = true) (hdry : r.DryRun = false)
    (hhook : (r.runHook env mod.Hooks.BeforeApply "module" mod.Name "before_apply").2
      = .ok ())
    (hsnap : env.snapNew = .ok ())
    (hrest : env.restore = .error rerr)
    (hfail : (r.applyItems env mod true).2 = .error e) :
    (r.ApplyModule env mod).2 = .error e
    ∧ Event.snapRestore (some rerr) ∈ (r.ApplyModule env mod).1
    ∧ Event.snapDiscard ∈ (r.ApplyModule env mod).1
    ∧ ∀ (item : Item) (e' : String),
        (r.applyItem env mod item true).2 = .error e' →
        ∃ rest, e' = "module \"" ++ mod.Name ++ "\": " ++ rest := by
  unfold ApplyModule
  cases hB : r.runHook env mod.Hooks.BeforeApply "module" mod.Name "before_apply" with
  | mk tB resB =>
    rw [hB] at hhook
    dsimp at hhook
    rw [hhook]
    dsimp only
    rw [if_pos ⟨hatomic, by simp [hdry]⟩, hsnap]
    dsimp only
    cases hI : r.applyItems env mod true with
    | mk tI resI =>
      rw [hI] at hfail
      dsimp at hfail
      rw [hfail, hrest]
      dsimp only
      refine ⟨rfl, ?_, ?_, ?_⟩
      · simp
      · simp
      · intro item e' h'
        exact applyItem_error_wrapped r env mod item true e' h'

/-- C10.  When every item succeeds but the after_apply hook fails, the
snapshot has already been discarded, no restore happens, and ApplyModule
returns the hook error: the all-or-nothing guarantee does not cover
after_apply failures. -/
theorem afterApply_failure_no_rollback (r : Runner) (env : Env) (mod : Module)
    (e : String)
    (hatomic : r.Atomic = true) (hdry : r.DryRun = false)
    (hhook : (r.runHook env mod.Hooks.BeforeApply "module" mod.Name "before_apply").2
      = .ok ())
    (hsnap : env.snapNew = .ok ())
    (hitems : (r.applyItems env mod true).2 = .ok ())
    (haa : mod.Hooks.AfterApply ≠ "")
    (hfail : env.shellRun mod.Hooks.AfterApply = .error e) :
    (r.ApplyModule env mod).2
      = .error ("hook after_apply failed on module \"" ++ mod.Name ++ "\": " ++ e)
    ∧ Event.snapDiscard ∈ (r.ApplyModule env mod).1
    ∧ ∀ m, Event.snapRestore m ∉ (r.ApplyModule env mod).1 := by
  unfold ApplyModule
  cases hB : r.runHook env mod.Hooks.BeforeApply "module" mod.Name "before_apply" with
  | mk tB resB =>
    rw [hB] at hhook
    dsimp at hhook
    rw [hhook]
    dsimp only
    rw [if_pos ⟨hatomic, by simp [hdry]⟩, hsnap]
    dsimp only
    cases hI : r.applyItems env mod true with
    | mk tI resI =>
      rw [hI] at hitems
      dsimp at hitems
      rw [hitems]
      dsimp only
      cases hA : r.runHook env mod.Hooks.AfterApply "module" mod.Name "after_apply" with
      | mk tA resA =>
        have hAerr := runHook_real_error r env mod.Hooks.AfterApply "module"
          mod.Name "after_apply" e haa hdry hfail
        rw [hA] at hAerr
        dsimp at hAerr
        refine ⟨hAerr, by simp, ?_⟩
        intro m hm
        simp only [List.append_assoc, List.mem_append, List.mem_cons,
          List.not_mem_nil, or_false, List.mem_singleton] at hm
        rcases hm with h | h | h | h | h
        · rcases runHook_mem r env mod.Hooks.BeforeApply "module" mod.Name
              "before_apply" (Event.snapRestore m) (by rw [hB]; exact h) with hc | hc <;>
            simp at hc
        · simp at h
        · exact ((applyItems_no_snap_lifecycle r env mod true) (Event.snapRestore m)
            (by rw [hI]; exact h)).1 m rfl
        · simp at h
        · rcases runHook_mem r env mod.Hooks.AfterApply "module" mod.Name
              "after_apply" (Event.snapRestore m) (by rw [hA]; exact h) with hc | hc <;>
            simp at hc

/-! ## Dry-run and audit claims -/

/-- C3 counterexample.  A well-formed module (every item has a recognised
type) whose package item names an unknown manager makes ApplyModule return a
non-nil error even in dry-run mode, because PackageAction.Run resolves
installArgs before its dry-run check. -/
theorem dry_run_error_cx :
    (∀ item ∈ modBadManager.Items, item.itemType ≠ "unknown")
    ∧ (rDry.ApplyModule envOk modBadManager).2
        = .error "module \"m\": unknown package manager: \"frobnicator\"" := by
  constructor
  · decide
  · rfl

/-- C3 amended.  Dry-run creates, records, restores and discards no
snapshot, executes no hook and no verify command, and passes the dry-run
flag to every action Run; it returns nil provided every skip_if evaluation,
every idempotency query and every action's own dry-run Run succeed. -/
theorem dry_run_guarantees (r : Runner) (env : Env) (mod : Module)
    (hdry : r.DryRun = true)
    (h1 : ∀ item ∈ mod.Items, item.itemType ≠ "unknown")
    (heval : ∀ cmd, ∃ b, env.shellEval cmd = .ok b)
    (hia : ∀ a, ∃ b, env.isApplied a = .ok b)
    (h2 : ∀ item ∈ mod.Items, ∀ a, r.buildAction item = .ok (some a) → a.runDry = .ok ()) :
    (r.ApplyModule env mod).2 = .ok ()
    ∧ ∀ ev ∈ (r.ApplyModule env mod).1, ev.dryLegal :=
  ⟨ApplyModule_dry_result r env mod hdry heval hia h1 h2,
   ApplyModule_dryLegal r env mod hdry⟩

theorem dry_run_guarantees_witness :
    (rDry.ApplyModule envOk modOsSkip).2 = .ok ()
    ∧ ∀ ev ∈ (rDry.ApplyModule envOk modOsSkip).1, ev.dryLegal :=
  dry_run_guarantees rDry envOk modOsSkip rfl (by decide)
    (fun cmd => ⟨false, rfl⟩) (fun a => ⟨false, rfl⟩)
    (by
      intro item hmem a hb
      have : item = { Package := "git", Via := "brew" } := by
        simpa [modOsSkip] using hmem
      subst this
      simp [buildAction, Item.itemType, skipManager, PackageManagerOS, rDry] at hb)

/-- C7 counterexample.  A module whose single item is skipped as not
applicable on the current OS is applied successfully while emitting zero
audit entries, so an item evaluation does not always emit exactly one
entry. -/
theorem os_skip_no_audit_cx :
    modOsSkip.Items.length = 1
    ∧ countAudit (rActual.ApplyModule envOk modOsSkip).1 = 0
    ∧ (rActual.ApplyModule envOk modOsSkip).2 = .ok () := ⟨rfl, rfl, rfl⟩

/-- C7 amended.  Every item evaluation emits at most one audit entry, and
every entry it emits records the outcome as skipped, success or failure;
the silent branches (OS skip, build error, skip_if evaluation failure,
idempotency-check failure, hook failure, snapshot-record failure) emit
none. -/
theorem applyItem_audit_at_most_one (r : Runner) (env : Env) (mod : Module)
    (item : Item) (snapActive : Bool) :
    countAudit (r.applyItem env mod item snapActive).1 ≤ 1
    ∧ ∀ en, Event.audit en ∈ (r.applyItem env mod item snapActive).1 →
        en.Outcome = "skipped" ∨ en.Outcome = "success" ∨ en.Outcome = "failure" :=
  ⟨applyItem_countAudit_le_one r env mod item snapActive,
   applyItem_audit_outcomes r env mod item snapActive⟩

theorem applyItem_audit_at_most_one_witness :
    countAudit (rActual.applyItem envOk modRunFail { Run := "false" } true).1 ≤ 1 :=
  (applyItem_audit_at_most_one rActual envOk modRunFail { Run := "false" } true).1

/-! ## VerifyModule claims -/

/-- C8.  VerifyModule never invokes any action Run (its trace holds only
verify-command runs and audit entries), and reports allPassed = false
exactly when some item with a non-empty verify field builds an applicable
action and its verify command fails; items without verify, build errors and
OS skips are excluded. -/
theorem verifyModule_false_iff_and_readonly (r : Runner) (env : Env) (mod : Module) :
    ((r.VerifyModule env mod).2.1 = false
      ↔ ∃ item ∈ mod.Items, item.Verify ≠ ""
          ∧ (∃ a, r.buildAction item = .ok (some a))
          ∧ (∃ e, env.shellRun item.Verify = .error e))
    ∧ ∀ ev ∈ (r.VerifyModule env mod).1,
        (∃ cmd, ev = Event.verifyRun cmd) ∨ (∃ en, ev = Event.audit en) :=
  ⟨verifyLoop_false_iff r env mod mod.Items, verifyLoop_events r env mod mod.Items⟩

theorem verifyModule_false_iff_witness :
    (rActual.VerifyModule envVerifyFail modVerify).2.1 = false :=
  (verifyModule_false_iff_and_readonly rActual envVerifyFail modVerify).1.mpr
    ⟨{ Run := "x", Verify := "v" }, by decide, by decide,
      ⟨.runA "x" "", rfl⟩, ⟨"vfail", rfl⟩⟩

/-- C9.  The error component of VerifyModule's return pair is nil for every
runner, oracle and module: build errors, OS skips and verify failures are
absorbed into the boolean or skipped. -/
theorem verifyModule_error_nil (r : Runner) (env : Env) (mod : Module) :
    (r.VerifyModule env mod).2.2 = none := rfl

/-! ## Sync hook membership -/

theorem applyLoop_no_module_hook (r : Runner) (env : Env) (mod : Module)
    (snapActive : Bool) (hn name cmd : String) :
    Event.hookRun hn "module" name cmd ∉ (r.applyLoop env mod snapActive mod.Items).1 := by
  intro hm
  have master := applyLoop_events r env mod snapActive
    (fun ev => ev ≠ Event.hookRun hn "module" name cmd)
    (by
      intro cmd' name' hn' ev hev
      rcases runHook_mem r env cmd' "item" name' hn' ev hev with h | h <;>
        subst h <;> simp)
    (by intro _ p; simp)
    (by intro a; simp)
    (by intro a e; simp)
    (by intro a; simp)
    (by intro a; simp)
    (by intro _ cmd'; simp)
    (by intro a; simp)
    (by intro cmd'; simp)
    mod.Items
  exact master _ hm rfl

theorem applyItems_ok_sync_mem (r : Runner) (env : Env) (mod : Module) (snap : Bool)
    (hdry : r.DryRun = false) (hbs : mod.Hooks.BeforeSync ≠ "")
    (hasy : mod.Hooks.AfterSync ≠ "")
    (tI : List Event) (hI : r.applyItems env mod snap = (tI, .ok ())) :
    (Event.hookRun "before_sync" "module" mod.Name mod.Hooks.BeforeSync ∈ tI
      ↔ r.hasSyncItem mod = true)
    ∧ (Event.hookRun "after_sync" "module" mod.Name mod.Hooks.AfterSync ∈ tI
      ↔ r.hasSyncItem mod = true) := by
  unfold applyItems at hI
  by_cases hsy : r.hasSyncItem mod = true
  · rw [if_pos hsy] at hI
    cases hB : r.runHook env mod.Hooks.BeforeSync "module" mod.Name "before_sync" with
    | mk tb resb =>
      have htb := runHook_real_trace r env mod.Hooks.BeforeSync "module" mod.Name
        "before_sync" hbs hdry
      rw [hB] at htb
      dsimp at htb
      cases resb with
      | error e =>
        rw [hB] at hI
        simp at hI
      | ok u =>
        rw [hB] at hI
        dsimp only at hI
        cases hL : r.applyLoop env mod snap mod.Items with
        | mk tL resL =>
          rw [hL] at hI
          cases resL with
          | error e => simp at hI
          | ok u2 =>
            dsimp only at hI
            cases hA : r.runHook env mod.Hooks.AfterSync "module" mod.Name
                "after_sync" with
            | mk ta resa =>
              rw [hA] at hI
              dsimp only at hI
              have hta := runHook_real_trace r env mod.Hooks.AfterSync "module"
                mod.Name "after_sync" hasy hdry
              rw [hA] at hta
              dsimp at hta
              simp only [Prod.mk.injEq] at hI
              rw [← hI.1, htb, hta]
              refine ⟨⟨fun _ => hsy, fun _ => by simp⟩, ⟨fun _ => hsy, fun _ => by simp⟩⟩
  · rw [if_neg hsy] at hI
    have h1 : (r.applyLoop env mod snap mod.Items).1 = tI := by rw [hI]
    constructor
    · constructor
      · intro hm
        rw [← h1] at hm
        exact absurd hm (applyLoop_no_module_hook r env mod snap "before_sync"
          mod.Name mod.Hooks.BeforeSync)
      · intro hsyt
        exact absurd hsyt hsy
    · constructor
      · intro hm
        rw [← h1] at hm
        exact absurd hm (applyLoop_no_module_hook r env mod snap "after_sync"
          mod.Name mod.Hooks.AfterSync)
      · intro hsyt
        exact absurd hsyt hsy

/-! ## Hook ordering claims -/

/-- C4 counterexample.  A module with a sync-direction item whose action
fails fires before_sync but never after_sync, so the sync hooks do not fire
merely because a sync item exists. -/
theorem sync_hooks_cx :
    Runner.hasSyncItem rNoAtomic modSyncHooks = true
    ∧ Event.hookRun "after_sync" "module" "m" "as"
        ∉ (rNoAtomic.ApplyModule envRollback modSyncHooks).1 := by
  refine ⟨rfl, ?_⟩
  decide

/-- C4 amended.  With declared hooks in a non-dry run: the before_apply
hook precedes every action run; the after_apply hook fires exactly when the
before_apply hook, snapshot creation (in atomic mode) and the whole item
phase (items plus sync hooks) succeed; and in a run that returns nil the
before_sync and after_sync hooks fire exactly when some item's effective
direction resolves to sync. -/
theorem hook_ordering (r : Runner) (env : Env) (mod : Module)
    (hdry : r.DryRun = false)
    (hba : mod.Hooks.BeforeApply ≠ "") (haa : mod.Hooks.AfterApply ≠ "")
    (hbs : mod.Hooks.BeforeSync ≠ "") (hasy : mod.Hooks.AfterSync ≠ "") :
    (∀ l₁ l₂ ev, (r.ApplyModule env mod).1 = l₁ ++ ev :: l₂ →
        ev.isActionRun = true →
        Event.hookRun "before_apply" "module" mod.Name mod.Hooks.BeforeApply ∈ l₁)
    ∧ (Event.hookRun "after_apply" "module" mod.Name mod.Hooks.AfterApply
          ∈ (r.ApplyModule env mod).1
        ↔ env.shellRun mod.Hooks.BeforeApply = .ok ()
          ∧ (r.Atomic = true → env.snapNew = .ok ())
          ∧ (r.applyItems env mod r.Atomic).2 = .ok ())
    ∧ ((r.ApplyModule env mod).2 = .ok () →
        ((Event.hookRun "before_sync" "module" mod.Name mod.Hooks.BeforeSync
            ∈ (r.ApplyModule env mod).1 ↔ r.hasSyncItem mod = true)
         ∧ (Event.hookRun "after_sync" "module" mod.Name mod.Hooks.AfterSync
            ∈ (r.ApplyModule env mod).1 ↔ r.hasSyncItem mod = true))) := by
  have hBtr := runHook_real_trace r env mod.Hooks.BeforeApply "module" mod.Name
    "before_apply" hba hdry
  have hAtr := runHook_real_trace r env mod.Hooks.AfterApply "module" mod.Name
    "after_apply" haa hdry
  cases hSB : env.shellRun mod.Hooks.BeforeApply with
  | error eB =>
    have hM : r.ApplyModule env mod
        = ([Event.hookRun "before_apply" "module" mod.Name mod.Hooks.BeforeApply],
           .error ("hook before_apply failed on module \"" ++ mod.Name ++ "\": " ++ eB)) := by
      have hBres := runHook_real_error r env mod.Hooks.BeforeApply "module" mod.Name
        "before_apply" eB hba hdry hSB
      unfold ApplyModule
      cases hB : r.runHook env mod.Hooks.BeforeApply "module" mod.Name "before_apply" with
      | mk tb resb =>
        rw [hB] at hBtr hBres
        dsimp at hBtr hBres
        rw [hBtr, hBres]
    rw [hM]
    dsimp only
    refine ⟨?_, ?_, ?_⟩
    · intro l₁ l₂ ev heq hev
      exact mem_left_of_split Event.isActionRun
        [Event.hookRun "before_apply" "module" mod.Name mod.Hooks.BeforeApply]
        [] l₁ l₂ ev (by simpa using heq) hev
        (by intro x hx; rw [List.mem_singleton] at hx; subst hx; rfl)
        _ (by simp)
    · simp [hSB]
    · intro hok
      simp at hok
  | ok uB =>
    have hSBok : env.shellRun mod.Hooks.BeforeApply = .ok () := hSB
    have hBres := runHook_real_ok r env mod.Hooks.BeforeApply "module" mod.Name
      "before_apply" hba hdry hSBok
    by_cases hAt : r.Atomic = true
    · cases hSN : env.snapNew with
      | error eS =>
        have hM : r.ApplyModule env mod
            = ([Event.hookRun "before_apply" "module" mod.Name mod.Hooks.BeforeApply],
               .error ("module \"" ++ mod.Name ++ "\": create snapshot: " ++ eS)) := by
          unfold ApplyModule
          cases hB : r.runHook env mod.Hooks.BeforeApply "module" mod.Name "before_apply" with
          | mk tb resb =>
            rw [hB] at hBtr hBres
            dsimp at hBtr hBres
            rw [hBtr, hBres]
            dsimp only
            rw [if_pos ⟨hAt, by simp [hdry]⟩, hSN]
        rw [hM]
        dsimp only
        refine ⟨?_, ?_, ?_⟩
        · intro l₁ l₂ ev heq hev
          exact mem_left_of_split Event.isActionRun
            [Event.hookRun "before_apply" "module" mod.Name mod.Hooks.BeforeApply]
            [] l₁ l₂ ev (by simpa using heq) hev
            (by intro x hx; rw [List.mem_singleton] at hx; subst hx; rfl)
            _ (by simp)
        · simp [hSBok, hAt, hSN]
        · intro hok
          simp at hok
      | ok uS =>
        have hSNok : env.snapNew = .ok () := hSN
        cases hI : r.applyItems env mod true with
        | mk tI resI =>
          cases resI with
          | error eI =>
            have hM : r.ApplyModule env mod
                = ([Event.hookRun "before_apply" "module" mod.Name mod.Hooks.BeforeApply]
                    ++ [Event.snapCreate] ++ tI
                    ++ [Event.snapRestore (match env.restore with
                          | .ok _ => none
                          | .error re => some re), Event.snapDiscard],
                   .error eI) := by
              unfold ApplyModule
              cases hB : r.runHook env mod.Hooks.BeforeApply "module" mod.Name "before_apply" with
              | mk tb resb =>
                rw [hB] at hBtr hBres
                dsimp at hBtr hBres
                rw [hBtr, hBres]
                dsimp only
                rw [if_pos ⟨hAt, by simp [hdry]⟩, hSN]
                dsimp only
                rw [hI]
            rw [hM]
            dsimp only
            refine ⟨?_, ?_, ?_⟩
            · intro l₁ l₂ ev heq hev
              exact mem_left_of_split Event.isActionRun
                [Event.hookRun "before_apply" "module" mod.Name mod.Hooks.BeforeApply]
                ([Event.snapCreate] ++ tI
                  ++ [Event.snapRestore (match env.restore with
                        | .ok _ => none
                        | .error re => some re), Event.snapDiscard])
                l₁ l₂ ev (by simpa [List.append_assoc] using heq) hev
                (by intro x hx; rw [List.mem_singleton] at hx; subst hx; rfl)
                _ (by simp)
            · constructor
              · intro hm
                exfalso
                simp only [List.append_assoc, List.mem_append, List.mem_cons,
                  List.not_mem_nil, or_false, List.mem_singleton] at hm
                rcases hm with h | h | h | h | h
                · simp at h
                · simp at h
                · have htI : (r.applyItems env mod true).1 = tI := by rw [hI]
                  rw [← htI] at h
                  exact applyItems_no_module_hook r env mod true "after_apply"
                    mod.Name mod.Hooks.AfterApply (by decide) (by decide) h
                · simp at h
                · simp at h
              · rintro ⟨_, _, h3⟩
                rw [hAt, hI] at h3
                simp at h3
            · intro hok
              simp at hok
          | ok uI =>
            have hM : r.ApplyModule env mod
                = ([Event.hookRun "before_apply" "module" mod.Name mod.Hooks.BeforeApply]
                    ++ [Event.snapCreate] ++ tI ++ [Event.snapDiscard]
                    ++ [Event.hookRun "after_apply" "module" mod.Name mod.Hooks.AfterApply],
                   (r.runHook env mod.Hooks.AfterApply "module" mod.Name "after_apply").2) := by
              unfold ApplyModule
              cases hB : r.runHook env mod.Hooks.BeforeApply "module" mod.Name "before_apply" with
              | mk tb resb =>
                rw [hB] at hBtr hBres
                dsimp at hBtr hBres
                rw [hBtr, hBres]
                dsimp only
                rw [if_pos ⟨hAt, by simp [hdry]⟩, hSN]
                dsimp only
                rw [hI]
                dsimp only
                cases hA : r.runHook env mod.Hooks.AfterApply "module" mod.Name "after_apply" with
                | mk ta resa =>
                  rw [hA] at hAtr
                  dsimp at hAtr
                  rw [hAtr]
            rw [hM]
            dsimp only
            have hsync := applyItems_ok_sync_mem r env mod true hdry hbs hasy tI (by rw [hI])
            refine ⟨?_, ?_, ?_⟩
            · intro l₁ l₂ ev heq hev
              exact mem_left_of_split Event.isActionRun
                [Event.hookRun "before_apply" "module" mod.Name mod.Hooks.BeforeApply]
                ([Event.snapCreate] ++ tI ++ [Event.snapDiscard]
                  ++ [Event.hookRun "after_apply" "module" mod.Name mod.Hooks.AfterApply])
                l₁ l₂ ev (by simpa [List.append_assoc] using heq) hev
                (by intro x hx; rw [List.mem_singleton] at hx; subst hx; rfl)
                _ (by simp)
            · constructor
              · intro _
                exact ⟨rfl, fun _ => rfl, by rw [hAt, hI]⟩
              · intro _
                simp
            · intro hok
              constructor
              · constructor
                · intro hm
                  simp only [List.append_assoc, List.mem_append, List.mem_cons,
                    List.not_mem_nil, or_false, List.mem_singleton] at hm
                  rcases hm with h | h | h | h | h
                  · simp at h
                  · simp at h
                  · exact hsync.1.mp h
                  · simp at h
                  · simp at h
                · intro hst
                  have hmem := hsync.1.mpr hst
                  simp [hmem]
              · constructor
                · intro hm
                  simp only [List.append_assoc, List.mem_append, List.mem_cons,
                    List.not_mem_nil, or_false, List.mem_singleton] at hm
                  rcases hm with h | h | h | h | h
                  · simp at h
                  · simp at h
                  · exact hsync.2.mp h
                  · simp at h
                  · simp at h
                · intro hst
                  have hmem := hsync.2.mpr hst
                  simp [hmem]
    · have hAtf : r.Atomic = false := by simpa using hAt
      cases hI : r.applyItems env mod false with
      | mk tI resI =>
        cases resI with
        | error eI =>
          have hM : r.ApplyModule env mod
              = ([Event.hookRun "before_apply" "module" mod.Name mod.Hooks.BeforeApply]
                  ++ tI, .error eI) := by
            unfold ApplyModule
            cases hB : r.runHook env mod.Hooks.BeforeApply "module" mod.Name "before_apply" with
            | mk tb resb =>
              rw [hB] at hBtr hBres
              dsimp at hBtr hBres
              rw [hBtr, hBres]
              dsimp only
              rw [if_neg (by simp [hAt])]
              rw [hI]
          rw [hM]
          dsimp only
          refine ⟨?_, ?_, ?_⟩
          · intro l₁ l₂ ev heq hev
            exact mem_left_of_split Event.isActionRun
              [Event.hookRun "before_apply" "module" mod.Name mod.Hooks.BeforeApply]
              tI l₁ l₂ ev (by simpa [List.append_assoc] using heq) hev
              (by intro x hx; rw [List.mem_singleton] at hx; subst hx; rfl)
              _ (by simp)
          · constructor
            · intro hm
              exfalso
              simp only [List.mem_append, List.mem_cons, List.not_mem_nil, or_false] at hm
              rcases hm with h | h
              · simp at h
              · have htI : (r.applyItems env mod false).1 = tI := by rw [hI]
                rw [← htI] at h
                exact applyItems_no_module_hook r env mod false "after_apply"
                  mod.Name mod.Hooks.AfterApply (by decide) (by decide) h
            · rintro ⟨_, _, h3⟩
              rw [hAtf, hI] at h3
              simp at h3
          · intro hok
            simp at hok
        | ok uI =>
          have hM : r.ApplyModule env mod
              = ([Event.hookRun "before_apply" "module" mod.Name mod.Hooks.BeforeApply]
                  ++ tI
                  ++ [Event.hookRun "after_apply" "module" mod.Name mod.Hooks.AfterApply],
                 (r.runHook env mod.Hooks.AfterApply "module" mod.Name "after_apply").2) := by
            unfold ApplyModule
            cases hB : r.runHook env mod.Hooks.BeforeApply "module" mod.Name "before_apply" with
            | mk tb resb =>
              rw [hB] at hBtr hBres
              dsimp at hBtr hBres
              rw [hBtr, hBres]
              dsimp only
              rw [if_neg (by simp [hAt])]
              rw [hI]
              dsimp only
              cases hA : r.runHook env mod.Hooks.AfterApply "module" mod.Name "after_apply" with
              | mk ta resa =>
                rw [hA] at hAtr
                dsimp at hAtr
                rw [hAtr]
          rw [hM]
          dsimp only
          have hsync := applyItems_ok_sync_mem r env mod false hdry hbs hasy tI (by rw [hI])
          refine ⟨?_, ?_, ?_⟩
          · intro l₁ l₂ ev heq hev
            exact mem_left_of_split Event.isActionRun
              [Event.hookRun "before_apply" "module" mod.Name mod.Hooks.BeforeApply]
              (tI ++ [Event.hookRun "after_apply" "module" mod.Name mod.Hooks.AfterApply])
              l₁ l₂ ev (by simpa [List.append_assoc] using heq) hev
              (by intro x hx; rw [List.mem_singleton] at hx; subst hx; rfl)
              _ (by simp)
          · constructor
            · intro _
              exact ⟨rfl, fun hat => absurd hat hAt, by rw [hAtf, hI]⟩
            · intro _
              simp
          · intro hok
            constructor
            · constructor
              · intro hm
                simp only [List.append_assoc, List.mem_append, List.mem_cons,
                  List.not_mem_nil, or_false, List.mem_singleton] at hm
                rcases hm with h | h | h
                · simp at h
                · exact hsync.1.mp h
                · simp at h
              · intro hst
                have hmem := hsync.1.mpr hst
                simp [hmem]
            · constructor
              · intro hm
                simp only [List.append_assoc, List.mem_append, List.mem_cons,
                  List.not_mem_nil, or_false, List.mem_singleton] at hm
                rcases hm with h | h | h
                · simp at h
                · exact hsync.2.mp h
                · simp at h
              · intro hst
                have hmem := hsync.2.mpr hst
                simp [hmem]

theorem hook_ordering_witness :
    Event.hookRun "after_apply" "module" "m" "aa"
      ∈ (rActual.ApplyModule envOk modSyncHooks).1 :=
  (hook_ordering rActual envOk modSyncHooks rfl (by decide) (by decide)
    (by decide) (by decide)).2.1.mpr ⟨rfl, fun _ => rfl, rfl⟩

theorem applyModule_restores_witness :
    (rActual.ApplyModule envRollback modRunFail).2 = .error "module \"m\": exit 1"
    ∧ Event.snapRestore (some "rerr") ∈ (rActual.ApplyModule envRollback modRunFail).1
    ∧ Event.snapDiscard ∈ (rActual.ApplyModule envRollback modRunFail).1 := by
  have h := applyModule_restores_and_returns_item_error rActual envRollback modRunFail
    "module \"m\": exit 1" "rerr" rfl rfl rfl rfl rfl rfl
  exact ⟨h.1, h.2.1, h.2.2.1⟩

theorem afterApply_failure_witness :
    (rActual.ApplyModule envHookFail modAfterApply).2
      = .error "hook after_apply failed on module \"m\": hookboom"
    ∧ Event.snapDiscard ∈ (rActual.ApplyModule envHookFail modAfterApply).1 := by
  have h := afterApply_failure_no_rollback rActual envHookFail modAfterApply "hookboom"
    rfl rfl rfl rfl rfl (by decide) rfl
  exact ⟨h.1, h.2.1⟩

end Runner

/-! ## Snapshot witnesses -/

theorem snapshot_roundtrip_witness :
    Snapshot.Restore snapSavedF fsAllNew "f" = FsItem.present false "old"
    ∧ Snapshot.Restore snapCreatedG fsAllNew "g" = FsItem.absent :=
  ⟨(Snapshot.record_restore_roundtrip Snapshot.New fsOldF fsAllNew "f" rfl rfl rfl).1
      false "old" rfl snapSavedF rfl,
   (Snapshot.record_restore_roundtrip Snapshot.New fsOldF fsAllNew "g" rfl rfl rfl).2
      rfl snapCreatedG rfl⟩

theorem record_idempotent_witness :
    Snapshot.Record snapSavedF fsAllNew "f" = .ok snapSavedF
    ∧ Snapshot.entryCount snapSavedF "f" = 1 :=
  ⟨(Snapshot.record_idempotent Snapshot.New fsOldF fsAllNew "f").1 snapSavedF rfl,
   (Snapshot.record_idempotent Snapshot.New fsOldF fsAllNew "f").2 rfl rfl snapSavedF rfl⟩

theorem snapshot_disjoint_witness : snapSavedF.DisjointSets :=
  Snapshot.snapshot_sets_disjoint.2 Snapshot.New fsOldF "f" snapSavedF
    Snapshot.snapshot_sets_disjoint.1 rfl

end Dotular
